import Mathlib

/-!
# Verification of the graph ↔ ASL conversion core of aws-flow-builder

This file gives a shallow embedding of `convertToASL` (GraphToDefinition) and
`convertFromASL` (DefinitionToGraph) from
`src/frontend/app/utils/aslConverter.ts`, and proves properties of them.

Modelling conventions for the JavaScript/TypeScript source:
* Optional fields (`x?: T`) become `Option T`; a missing key is `none`.
* JavaScript truthiness on optional strings (`if (s)`, `s || d`): `none` and
  `some ""` are falsy, every other string is truthy.  An object-valued field
  (`States`, an `ASLState`, a `Choices` array) is truthy exactly when present,
  matching JavaScript where every object (even `{}` and `[]`) is truthy.
* `Record<string, T>` objects become association lists in insertion order with
  unique keys maintained by the write operation (`recSet`); `Map` objects
  become association lists where the last `set` for a key wins (`jsMapGet`).
  The record keys produced here (`State_<id>` names) are never array-index
  strings, so JavaScript preserves their insertion order.
* Fields typed `unknown` in the source (`Result`, `Parameters` values) only
  ever flow through the converters unchanged or get compared/defaulted as
  strings, so they are modelled as `String` payloads.
-/

namespace FlowBuilder

/-- JS truthiness of an optional string: `undefined` and `""` are falsy. -/
def jsTruthy : Option String → Bool
  | none => false
  | some s => !(s == "")

/-- JS `a || b` for an optional string `a` and a string default `b`. -/
def jsOrS (a : Option String) (b : String) : String :=
  match a with
  | none => b
  | some s => if s == "" then b else s

/-- One entry of a Choice state's `Choices` array
(`{ Next?: string; Variable?: string }`). -/
structure ChoiceRule where
  Next : Option String
  Variable : Option String
deriving DecidableEq, Repr

/-- `ASLState` from `aslConverter.ts`.  `Type` is declared required in the
TypeScript interface but the code guards against its runtime absence
(`state.Type || 'Pass'`), so it is modelled as optional. -/
structure ASLState where
  Type' : Option String
  Comment : Option String := none
  Next : Option String := none
  End' : Option Bool := none
  Resource : Option String := none
  Parameters : Option (List (String × String)) := none
  Result : Option String := none
  Choices : Option (List ChoiceRule) := none
  Default : Option String := none
deriving DecidableEq, Repr

/-- `ASLDefinition` from `aslConverter.ts`.  `StartAt` and `States` are
declared required but `convertFromASL` guards against their runtime absence,
so both are modelled as optional. -/
structure ASLDefinition where
  Comment : Option String := none
  StartAt : Option String := none
  States : Option (List (String × ASLState)) := none
deriving DecidableEq, Repr

/-- The part of a React Flow node's `data` bag that the converters touch. -/
structure NodeData where
  label : Option String := none
  stateType : Option String := none
  stateName : Option String := none
  resource : Option String := none
  parameters : Option (List (String × String)) := none
  result : Option String := none
  fullState : Option ASLState := none
deriving DecidableEq, Repr

/-- A node position (`{ x, y }`), pixel coordinates. -/
structure Position where
  x : Nat
  y : Nat
deriving DecidableEq, Repr

/-- A React Flow node as used by the converters: `id`, optional `type` tag,
optional `data` bag, optional `position`. -/
structure Node where
  id : String
  type : Option String := none
  data : Option NodeData := none
  position : Option Position := none
deriving DecidableEq, Repr

/-- A React Flow edge: `id`, `source`, `target`, optional `label`. -/
structure Edge where
  id : String
  source : String
  target : String
  label : Option String := none
deriving DecidableEq, Repr

/-! ## Association-list operations mirroring JS objects and Maps -/

/-- The states record under construction in `convertToASL`. -/
abbrev StatesRec := List (String × ASLState)

/-- JS object write `m[k] = v`: overwrite in place if the key exists,
otherwise append (insertion order preserved). -/
def recSet (m : StatesRec) (k : String) (v : ASLState) : StatesRec :=
  if m.any (fun p => p.1 == k) then
    m.map (fun p => if p.1 == k then (p.1, v) else p)
  else m ++ [(k, v)]

/-- JS object read `m[k]`: `undefined` when the key is missing. -/
def recGet (m : StatesRec) (k : String) : Option ASLState :=
  (m.find? (fun p => p.1 == k)).map (fun p => p.2)

/-- In-place mutation of the state stored at key `k` (models
`delete m[k].End; m[k].Next = t` and the like). -/
def recUpdate (m : StatesRec) (k : String) (f : ASLState → ASLState) : StatesRec :=
  m.map (fun p => if p.1 == k then (p.1, f p.2) else p)

/-- JS `Map.get` over entries listed in insertion order, where a later
`set` for the same key overwrote an earlier one: the last entry wins. -/
def jsMapGet (m : List (String × String)) (k : String) : Option String :=
  ((m.reverse).find? (fun p => p.1 == k)).map (fun p => p.2)

/-! ## `convertToASL` (GraphToDefinition) -/

/-- The `stateMap : Map<nodeId, stateName>` of `convertToASL`.  Every node
contributes the entry `node.id ↦ "State_" ++ node.id`; since the value is
determined by the key, `Map.get` returns `some ("State_" ++ x)` exactly when
some node has id `x` (re-`set` for a duplicate id writes the same value). -/
def stateMapGet (nodes : List Node) (x : String) : Option String :=
  if nodes.any (fun n => n.id == x) then some ("State_" ++ x) else none

/-- The state built for one node (lines 46–62 of `aslConverter.ts`).  Both
branches emit `Type: 'Pass'`; they differ only in the `Comment`/`Result`
defaults. -/
def makeState (node : Node) : ASLState :=
  if node.type == some "pass" || (node.data.bind (fun d => d.stateType)) == some "Pass" then
    { Type' := some "Pass"
      Comment := some (jsOrS (node.data.bind (fun d => d.label)) ("Pass state " ++ node.id))
      Result :=
        some (jsOrS (node.data.bind (fun d => d.result))
          (jsOrS (node.data.bind (fun d => d.label)) "Pass"))
      End' := some true }
  else
    { Type' := some "Pass"
      Comment := some (jsOrS (node.data.bind (fun d => d.label)) ("State " ++ node.id))
      Result := some (jsOrS (node.data.bind (fun d => d.label)) "Pass")
      End' := some true }

/-- Processing of one edge (lines 66–75): when source and target both resolve
to known state names and the source state exists, delete its `End` and set
`Next` to the target's state name. -/
def applyEdge (nodes : List Node) (sts : StatesRec) (e : Edge) : StatesRec :=
  match stateMapGet nodes e.source, stateMapGet nodes e.target with
  | some sN, some tN =>
    if !(sN == "") && !(tN == "") && (recGet sts sN).isSome then
      recUpdate sts sN (fun st => { st with End' := none, Next := some tN })
    else sts
  | _, _ => sts

/-- Final pass for one node (lines 79–87): a node that is the source of no
edge has its state forced to `End: true` with `Next` removed. -/
def finalizeNode (nodes : List Node) (edges : List Edge) (sts : StatesRec) (n : Node) :
    StatesRec :=
  if edges.any (fun e => e.source == n.id) then sts
  else
    match stateMapGet nodes n.id with
    | some sName =>
      if !(sName == "") && (recGet sts sName).isSome then
        recUpdate sts sName (fun st => { st with Next := none, End' := some true })
      else sts
    | none => sts

/-- Body of `convertToASL` on a non-empty node list whose first element is
`n0` (so `nodes[0] = n0`). -/
def convertToASLCore (nodes : List Node) (n0 : Node) (edges : List Edge) : ASLDefinition :=
  let startNode :=
    (nodes.find? (fun n => !(edges.any (fun e => e.target == n.id)))).getD n0
  let states0 :=
    nodes.foldl (fun sts n => recSet sts ("State_" ++ n.id) (makeState n)) []
  let states1 := edges.foldl (applyEdge nodes) states0
  let states2 := nodes.foldl (finalizeNode nodes edges) states1
  { Comment := some "State machine generated from Flow Builder"
    StartAt := some (jsOrS (stateMapGet nodes startNode.id) ("State_" ++ startNode.id))
    States := some states2 }

/-- `convertToASL` (lines 25–94): `null` on an empty node list, otherwise the
assembled definition. -/
def convertToASL : List Node → List Edge → Option ASLDefinition
  | [], _ => none
  | n0 :: ns, edges => some (convertToASLCore (n0 :: ns) n0 edges)

/-! ## `convertFromASL` (DefinitionToGraph) -/

/-- `Math.ceil(Math.sqrt(n))` for a natural `n`. -/
def ceilSqrt (n : Nat) : Nat :=
  if Nat.sqrt n * Nat.sqrt n == n then Nat.sqrt n else Nat.sqrt n + 1

/-- The node built for the state at index `i` (0-based) of a definition with
`total` states (lines 111–145).  The node id is `node-<i+1>`, the counter
having been seeded at 1 fresh in this call. -/
def aslNode (total i : Nat) (stateName : String) (st : ASLState) : Node :=
  let cols := ceilSqrt total
  { id := "node-" ++ toString (i + 1)
    type := some "pass"
    data := some
      { label := some (jsOrS st.Comment stateName)
        stateType := some (jsOrS st.Type' "Pass")
        stateName := some stateName
        resource := st.Resource
        parameters := st.Parameters
        result := st.Result
        fullState := some st }
    position := some { x := (i % cols) * 300 + 100, y := (i / cols) * 200 + 100 } }

/-- The node list of `convertFromASL`, built over the state entries with a
counter starting at `i` (`0` at the top-level call). -/
def nodesFrom (total : Nat) : Nat → List (String × ASLState) → List Node
  | _, [] => []
  | i, (name, st) :: rest => aslNode total i name st :: nodesFrom total (i + 1) rest

/-- The entries of `stateToNodeId : Map<stateName, nodeId>` in insertion
order: the state at index `i` maps to `node-<i+1>`. -/
def stnEntries : Nat → List (String × ASLState) → List (String × String)
  | _, [] => []
  | i, (name, _) :: rest => (name, "node-" ++ toString (i + 1)) :: stnEntries (i + 1) rest

/-- Edges contributed by the `Choices` array of a Choice state
(lines 169–183): one labelled edge per entry whose `Next` is truthy and
resolves in the map. -/
def choiceEdges (stn : List (String × String)) (src : String) :
    Nat → List ChoiceRule → List Edge
  | _, [] => []
  | i, c :: rest =>
    (match c.Next with
     | some cn =>
       if !(cn == "") then
         match jsMapGet stn cn with
         | some tgt =>
           [{ id := "edge-" ++ src ++ "-" ++ tgt ++ "-" ++ toString i
              source := src, target := tgt
              label := some (jsOrS c.Variable ("Choice " ++ toString (i + 1))) }]
         | none => []
       else []
     | none => []) ++ choiceEdges stn src (i + 1) rest

/-- Edges contributed by one state entry (lines 149–197): a `Next` edge when
the target resolves, then — for Choice states — one edge per `Choices` entry
and a `Default` edge. -/
def edgesForState (stn : List (String × String)) (p : String × ASLState) : List Edge :=
  match jsMapGet stn p.1 with
  | none => []
  | some src =>
    if src == "" then []
    else
      (match p.2.Next with
       | some nxt =>
         if !(nxt == "") then
           match jsMapGet stn nxt with
           | some tgt =>
             [{ id := "edge-" ++ src ++ "-" ++ tgt, source := src, target := tgt,
                label := none }]
           | none => []
         else []
       | none => []) ++
      (if p.2.Type' == some "Choice" then
        (match p.2.Choices with
         | some cs => choiceEdges stn src 0 cs
         | none => []) ++
        (match p.2.Default with
         | some df =>
           if !(df == "") then
             match jsMapGet stn df with
             | some tgt =>
               [{ id := "edge-" ++ src ++ "-" ++ tgt ++ "-default",
                  source := src, target := tgt, label := some "Default" }]
             | none => []
           else []
         | none => [])
      else [])

/-- `convertFromASL` (lines 99–200): `null` when `States` is runtime-absent
or `StartAt` is falsy (absent or `""`); otherwise the grid-laid-out nodes and
the decoded edges.  `States` present but empty is truthy in JavaScript
(`!{}` is `false`), so it does NOT short-circuit to `null`. -/
def convertFromASL (d : ASLDefinition) : Option (List Node × List Edge) :=
  match d.States with
  | none => none
  | some sts =>
    if !(jsTruthy d.StartAt) then none
    else
      let stn := stnEntries 0 sts
      some (nodesFrom sts.length 0 sts, sts.foldl (fun acc p => acc ++ edgesForState stn p) [])

/-! ## Derived and specification-side definitions -/

/-- Digits of `n` in base 10, most significant first: a structural
counterpart of `Nat.toDigitsCore` (used to prove node-id distinctness). -/
def natDigits (n : Nat) : List Char :=
  if h : n < 10 then [Nat.digitChar n]
  else natDigits (n / 10) ++ [Nat.digitChar (n % 10)]
decreasing_by
  exact Nat.div_lt_self (by omega) (by omega)

/-- The node id `convertFromASL` synthesizes for 0-based state index `i`
(the counter starts at 1). -/
def nid (i : Nat) : String := "node-" ++ toString (i + 1)

/-- Exactly one of `Next` and `End` is present in a state. -/
def exactlyOneNextEnd (st : ASLState) : Prop :=
  (st.Next.isSome = true ∧ st.End' = none) ∨ (st.Next = none ∧ st.End'.isSome = true)

/-- Modelled from the spec: the first node in `nodes` order that is the
target of no edge. -/
def firstWithNoIncoming : List Node → List Edge → Option Node
  | [], _ => none
  | n :: rest, edges =>
    if edges.all (fun e => !(e.target == n.id)) then some n
    else firstWithNoIncoming rest edges

/-- Modelled from the spec: the start-state name described by the spec —
the state of the first node with no incoming edge, falling back to the
first node when every node has an incoming edge. -/
def specStartName (nodes : List Node) (edges : List Edge) : Option String :=
  match firstWithNoIncoming nodes edges with
  | some n => some ("State_" ++ n.id)
  | none => nodes.head?.map (fun n => "State_" ++ n.id)

/-- The state `convertToASL` ends up storing for node `nd`, given the full
edge list: when some edge leaves `nd` (and all edges are known-valid), the
unique such edge's target gives `Next`; otherwise the state stays terminal. -/
def outStateFinal (edges : List Edge) (nd : Node) : ASLState :=
  match edges.find? (fun e => e.source == nd.id) with
  | some e => { makeState nd with Next := some ("State_" ++ e.target), End' := none }
  | none => makeState nd

/-- The edge `convertFromASL` emits for a plain `Next` transition from the
state at position `a` to the state at position `b`. -/
def nextEdge (a b : Nat) : Edge :=
  { id := "edge-" ++ nid a ++ "-" ++ nid b, source := nid a, target := nid b,
    label := none }

/-- The states of `sts` form one simple linear `Next` chain: `ord` lists the
positions of the chain in path order.  All states are Pass states, the state
at each non-final chain position names the next position's state via `Next`
(and is non-terminal), and the final state is terminal (`End: true`, no
`Next`). -/
def IsPassChain (sts : List (String × ASLState)) (ord : List Nat) : Prop :=
  List.Perm ord (List.range sts.length) ∧
  (∀ p ∈ sts, p.2.Type' = some "Pass") ∧
  (∀ j a b, ord.get? j = some a → ord.get? (j + 1) = some b →
    ∃ pa pb, sts.get? a = some pa ∧ sts.get? b = some pb ∧
      pa.2.Next = some pb.1) ∧
  (∀ a, ord.get? (ord.length - 1) = some a →
    ∃ pa, sts.get? a = some pa ∧ pa.2.Next = none ∧ pa.2.End' = some true)

/-! ## String infrastructure: decimal representations are injective

`convertFromASL` synthesizes node ids `node-<counter>` and `convertToASL`
synthesizes state names `State_<nodeId>`; distinctness of these strings
reduces to injectivity of `Nat.repr`. -/

theorem natDigits_def (n : Nat) :
    natDigits n =
      if n < 10 then [Nat.digitChar n]
      else natDigits (n / 10) ++ [Nat.digitChar (n % 10)] := by
  rw [natDigits]
  split <;> simp_all

theorem natDigits_ne_nil (n : Nat) : natDigits n ≠ [] := by
  rw [natDigits_def]
  split
  · simp
  · simp

theorem toDigitsCore_eq_natDigits (fuel : Nat) :
    ∀ n ds, n < fuel → Nat.toDigitsCore 10 fuel n ds = natDigits n ++ ds := by
  induction fuel with
  | zero => intro n ds h; omega
  | succ fuel ih =>
    intro n ds h
    have hstep : Nat.toDigitsCore 10 (fuel + 1) n ds =
        (if n / 10 = 0 then Nat.digitChar (n % 10) :: ds
         else Nat.toDigitsCore 10 fuel (n / 10) (Nat.digitChar (n % 10) :: ds)) := by
      simp [Nat.toDigitsCore]
    rw [hstep]
    by_cases h0 : n / 10 = 0
    · have hlt : n < 10 := (Nat.div_eq_zero_iff (by omega)).mp h0
      rw [if_pos h0, natDigits_def n, if_pos hlt, Nat.mod_eq_of_lt hlt]
      simp
    · have h10 : ¬ n < 10 := by
        intro hc
        exact h0 ((Nat.div_eq_zero_iff (by omega)).mpr hc)
      have hltn : n / 10 < n := Nat.div_lt_self (by omega) (by omega)
      have hdivlt : n / 10 < fuel := by omega
      rw [if_neg h0, ih (n / 10) _ hdivlt, natDigits_def n, if_neg h10,
        List.append_assoc]
      simp

theorem repr_eq_natDigits (n : Nat) : Nat.repr n = (natDigits n).asString := by
  have : Nat.toDigitsCore 10 (n + 1) n [] = natDigits n ++ [] :=
    toDigitsCore_eq_natDigits (n + 1) n [] (by omega)
  simp only [Nat.repr, Nat.toDigits, this, List.append_nil]

theorem digitChar_inj : ∀ a, a < 10 → ∀ b, b < 10 →
    Nat.digitChar a = Nat.digitChar b → a = b := by decide

theorem natDigits_inj : ∀ a b : Nat, natDigits a = natDigits b → a = b := by
  intro a
  induction a using Nat.strong_induction_on with
  | _ a ih =>
    intro b h
    by_cases ha : a < 10 <;> by_cases hb : b < 10
    · rw [natDigits_def a, if_pos ha, natDigits_def b, if_pos hb] at h
      exact digitChar_inj a ha b hb (List.cons.inj h).1
    · rw [natDigits_def a, if_pos ha, natDigits_def b, if_neg hb] at h
      have := congrArg List.length h
      simp at this
      exact absurd this (natDigits_ne_nil (b / 10))
    · rw [natDigits_def a, if_neg ha, natDigits_def b, if_pos hb] at h
      have := congrArg List.length h
      simp at this
      exact absurd this (natDigits_ne_nil (a / 10))
    · rw [natDigits_def a, if_neg ha, natDigits_def b, if_neg hb] at h
      obtain ⟨h1, h2⟩ := List.append_inj' h (by simp)
      have hdiv : a / 10 = b / 10 :=
        ih (a / 10) (Nat.div_lt_self (by omega) (by omega)) (b / 10) h1
      have hmod : a % 10 = b % 10 :=
        digitChar_inj _ (Nat.mod_lt a (by omega)) _ (Nat.mod_lt b (by omega))
          (List.cons.inj h2).1
      omega

theorem natRepr_inj {a b : Nat} (h : Nat.repr a = Nat.repr b) : a = b := by
  rw [repr_eq_natDigits, repr_eq_natDigits] at h
  have : natDigits a = natDigits b := by
    have := congrArg String.data h
    simpa [List.asString] using this
  exact natDigits_inj a b this

theorem toString_nat_inj {a b : Nat} (h : toString a = toString b) : a = b :=
  natRepr_inj h

/-- Left cancellation for string append. -/
theorem string_append_left_cancel {a b c : String} (h : a ++ b = a ++ c) :
    b = c := by
  apply String.ext
  have := congrArg String.data h
  rw [String.data_append, String.data_append] at this
  exact List.append_cancel_left this

/-- A string with a non-empty prefix is non-empty. -/
theorem string_append_ne_empty {p x : String} (hp : p.data ≠ []) :
    p ++ x ≠ "" := by
  intro h
  have := congrArg String.data h
  rw [String.data_append] at this
  simp only [List.append_eq_nil] at this
  exact hp this.1

theorem stateName_inj {a b : String} (h : "State_" ++ a = "State_" ++ b) :
    a = b := string_append_left_cancel h

theorem stateName_ne_empty (x : String) : "State_" ++ x ≠ "" :=
  string_append_ne_empty (by decide)

theorem nid_inj {i j : Nat} (h : nid i = nid j) : i = j := by
  have := toString_nat_inj (string_append_left_cancel h)
  omega

theorem nid_ne_empty (i : Nat) : nid i ≠ "" :=
  string_append_ne_empty (by decide)

/-! ## Fold and record invariants -/

theorem foldl_inv {α β : Type} (P : β → Prop) (f : β → α → β)
    (step : ∀ b a, P b → P (f b a)) :
    ∀ (l : List α) (b : β), P b → P (l.foldl f b) := by
  intro l
  induction l with
  | nil => intro b hb; exact hb
  | cons a l ih => intro b hb; exact ih _ (step b a hb)

theorem mem_recSet {m : StatesRec} {k : String} {v : ASLState}
    {p : String × ASLState} (hp : p ∈ recSet m k v) : p ∈ m ∨ p = (k, v) := by
  unfold recSet at hp
  split at hp
  · obtain ⟨q, hq, hqe⟩ := List.mem_map.mp hp
    by_cases hk : q.1 == k
    · right
      rw [if_pos hk] at hqe
      rw [← hqe, eq_of_beq hk]
    · left
      rw [if_neg hk] at hqe
      rw [← hqe]; exact hq
  · rcases List.mem_append.mp hp with h | h
    · exact Or.inl h
    · right; simpa using h

theorem mem_recUpdate {m : StatesRec} {k : String} {f : ASLState → ASLState}
    {p : String × ASLState} (hp : p ∈ recUpdate m k f) :
    p ∈ m ∨ ∃ q ∈ m, p = (q.1, f q.2) := by
  unfold recUpdate at hp
  obtain ⟨q, hq, hqe⟩ := List.mem_map.mp hp
  by_cases hk : q.1 == k
  · right
    rw [if_pos hk] at hqe
    exact ⟨q, hq, hqe.symm⟩
  · left
    rw [if_neg hk] at hqe
    rw [← hqe]; exact hq

theorem allP_recSet (P : ASLState → Prop) {m : StatesRec} {k : String}
    {v : ASLState} (hm : ∀ p ∈ m, P p.2) (hv : P v) :
    ∀ p ∈ recSet m k v, P p.2 := by
  intro p hp
  rcases mem_recSet hp with h | h
  · exact hm p h
  · rw [h]; exact hv

theorem allP_recUpdate (P : ASLState → Prop) {m : StatesRec} {k : String}
    {f : ASLState → ASLState} (hm : ∀ p ∈ m, P p.2)
    (hf : ∀ st, P st → P (f st)) : ∀ p ∈ recUpdate m k f, P p.2 := by
  intro p hp
  rcases mem_recUpdate hp with h | ⟨q, hq, hqe⟩
  · exact hm p h
  · rw [hqe]; exact hf q.2 (hm q hq)

theorem allP_applyEdge (P : ASLState → Prop) {nodes : List Node}
    {m : StatesRec} {e : Edge} (hm : ∀ p ∈ m, P p.2)
    (hf : ∀ st t, P st → P { st with End' := none, Next := some t }) :
    ∀ p ∈ applyEdge nodes m e, P p.2 := by
  unfold applyEdge
  split
  · split
    · exact allP_recUpdate P hm (fun st hst => hf st _ hst)
    · exact hm
  · exact hm

theorem allP_finalizeNode (P : ASLState → Prop) {nodes : List Node}
    {edges : List Edge} {m : StatesRec} {n : Node} (hm : ∀ p ∈ m, P p.2)
    (hf : ∀ st, P st → P { st with Next := none, End' := some true }) :
    ∀ p ∈ finalizeNode nodes edges m n, P p.2 := by
  unfold finalizeNode
  split
  · exact hm
  · split
    · split
      · exact allP_recUpdate P hm hf
      · exact hm
    · exact hm

/-- Any property of states that holds for every freshly made state and is
preserved by the edge update and the terminal-marking update holds for every
state in a `convertToASL` output. -/
theorem allP_convertToASL (P : ASLState → Prop)
    (hmake : ∀ n, P (makeState n))
    (hedge : ∀ st t, P st → P { st with End' := none, Next := some t })
    (hfin : ∀ st, P st → P { st with Next := none, End' := some true }) :
    ∀ nodes edges d, convertToASL nodes edges = some d →
    ∀ sts, d.States = some sts → ∀ p ∈ sts, P p.2 := by
  intro nodes edges d hconv sts hsts
  cases nodes with
  | nil => simp [convertToASL] at hconv
  | cons n0 ns =>
    simp only [convertToASL, Option.some.injEq] at hconv
    rw [← hconv] at hsts
    simp only [convertToASLCore, Option.some.injEq] at hsts
    rw [← hsts]
    have h0 : ∀ p ∈
        ((n0 :: ns).foldl (fun sts n => recSet sts ("State_" ++ n.id) (makeState n))
          ([] : StatesRec)), P p.2 :=
      foldl_inv (fun (m : StatesRec) => ∀ p ∈ m, P p.2) _
        (fun b a hb => allP_recSet P hb (hmake a)) (n0 :: ns) []
        (by intro p hp; simp at hp)
    have h1 : ∀ p ∈
        (edges.foldl (applyEdge (n0 :: ns))
          ((n0 :: ns).foldl (fun sts n => recSet sts ("State_" ++ n.id) (makeState n))
            ([] : StatesRec))), P p.2 :=
      foldl_inv (fun (m : StatesRec) => ∀ p ∈ m, P p.2) _
        (fun b a hb => allP_applyEdge P hb hedge) edges _ h0
    exact foldl_inv (fun (m : StatesRec) => ∀ p ∈ m, P p.2) _
      (fun b a hb => allP_finalizeNode P hb hfin) (n0 :: ns) _ h1

/-! ## Key-set lemmas for the states record -/

theorem keys_recUpdate (m : StatesRec) (k : String) (f : ASLState → ASLState) :
    (recUpdate m k f).map Prod.fst = m.map Prod.fst := by
  unfold recUpdate
  rw [List.map_map]
  apply List.map_congr_left
  intro a _
  simp only [Function.comp_apply]
  split <;> rfl

theorem keys_applyEdge (nodes : List Node) (m : StatesRec) (e : Edge) :
    (applyEdge nodes m e).map Prod.fst = m.map Prod.fst := by
  unfold applyEdge
  split
  · split
    · rw [keys_recUpdate]
    · rfl
  · rfl

theorem keys_finalizeNode (nodes : List Node) (edges : List Edge)
    (m : StatesRec) (n : Node) :
    (finalizeNode nodes edges m n).map Prod.fst = m.map Prod.fst := by
  unfold finalizeNode
  split
  · rfl
  · split
    · split
      · rw [keys_recUpdate]
      · rfl
    · rfl

theorem keys_recSet_self (m : StatesRec) (k : String) (v : ASLState) :
    k ∈ (recSet m k v).map Prod.fst := by
  unfold recSet
  split
  · next hany =>
    obtain ⟨p, hp, hpk⟩ := List.any_eq_true.mp hany
    rw [List.map_map]
    apply List.mem_map.mpr
    refine ⟨p, hp, ?_⟩
    have hk : p.1 = k := eq_of_beq hpk
    simp [hk]
  · simp

theorem keys_recSet_mono (m : StatesRec) (k j : String) (v : ASLState)
    (hj : j ∈ m.map Prod.fst) : j ∈ (recSet m k v).map Prod.fst := by
  unfold recSet
  split
  · rw [List.map_map]
    obtain ⟨p, hp, hpj⟩ := List.mem_map.mp hj
    apply List.mem_map.mpr
    refine ⟨p, hp, ?_⟩
    simp only [Function.comp_apply]
    split <;> simp [hpj]
  · rw [List.map_append]
    exact List.mem_append.mpr (Or.inl hj)

theorem keys_creation (l : List Node) :
    ∀ (init : StatesRec) (n : Node), n ∈ l →
      ("State_" ++ n.id) ∈
        (l.foldl (fun sts nd => recSet sts ("State_" ++ nd.id) (makeState nd))
          init).map Prod.fst := by
  induction l with
  | nil => intro init n hn; simp at hn
  | cons a l ih =>
    intro init n hn
    rcases List.mem_cons.mp hn with h | h
    · subst h
      simp only [List.foldl_cons]
      exact foldl_inv
        (fun (m : StatesRec) => ("State_" ++ n.id) ∈ m.map Prod.fst) _
        (fun b nd hb => keys_recSet_mono b _ _ _ hb) l _
        (keys_recSet_self init _ _)
    · simp only [List.foldl_cons]
      exact ih _ n h

theorem recGet_isSome_of_key (m : StatesRec) (k : String)
    (h : k ∈ m.map Prod.fst) : (recGet m k).isSome = true := by
  unfold recGet
  obtain ⟨p, hp, hpk⟩ := List.mem_map.mp h
  have hfs : (List.find? (fun p => p.1 == k) m).isSome = true :=
    List.find?_isSome.mpr ⟨p, hp, by simp [hpk]⟩
  obtain ⟨q, hq⟩ := Option.isSome_iff_exists.mp hfs
  rw [hq]
  rfl

theorem recGet_mem {m : StatesRec} {k : String} {st : ASLState}
    (h : recGet m k = some st) : ∃ p ∈ m, p.1 = k ∧ p.2 = st := by
  unfold recGet at h
  obtain ⟨q, hq, hq2⟩ := Option.map_eq_some'.mp h
  have hbeq := List.find?_some hq
  exact ⟨q, List.mem_of_find?_eq_some hq, eq_of_beq hbeq, hq2⟩

/-! ## Concrete-scenario claims -/

/-- C9: on nodes `1` (Pass, label A) and `2` (Pass, label B) with the single
edge `1 → 2`, `convertToASL` returns `StartAt = "State_1"` and exactly the
two states `State_1` (Type Pass, `Next = "State_2"`, no `End`) and `State_2`
(Type Pass, `End = true`, no `Next`). -/
theorem claim_C9 :
    convertToASL
      [{ id := "1", data := some { stateType := some "Pass", label := some "A" } },
       { id := "2", data := some { stateType := some "Pass", label := some "B" } }]
      [{ id := "e1", source := "1", target := "2" }]
    = some
      { Comment := some "State machine generated from Flow Builder"
        StartAt := some "State_1"
        States := some
          [("State_1",
            { Type' := some "Pass", Comment := some "A", Next := some "State_2",
              End' := none, Result := some "A" }),
           ("State_2",
            { Type' := some "Pass", Comment := some "B", Next := none,
              End' := some true, Result := some "B" })] } := by
  rfl

/-- C2 (counterexample): a definition whose `States` key is present but an
empty mapping is NOT rejected — an empty object is truthy in JavaScript, so
`convertFromASL` returns an empty graph instead of "no result", contradicting
the claim that a present-but-empty `States` yields no result. -/
theorem claim_C2_counterexample :
    convertFromASL { StartAt := some "x", States := some [] } = some ([], []) ∧
      some (([], []) : List Node × List Edge) ≠ none := by
  exact ⟨rfl, by simp⟩

/-- C2 (amended): `GraphToDefinition` on an empty node list returns no
result, and `DefinitionToGraph` returns no result exactly when `States` is
absent or `StartAt` is absent or the empty string; in every other case —
including a present-but-empty `States` mapping — a result is returned. -/
theorem claim_C2_amended :
    (∀ edges, convertToASL [] edges = none) ∧
    (∀ d : ASLDefinition,
      convertFromASL d = none ↔
        d.States = none ∨ d.StartAt = none ∨ d.StartAt = some "") := by
  constructor
  · intro edges; rfl
  · intro d
    obtain ⟨c, sa, sts⟩ := d
    cases sts with
    | none => simp [convertFromASL]
    | some l =>
      cases sa with
      | none => simp [convertFromASL, jsTruthy]
      | some s =>
        by_cases hs : s = "" <;> simp [convertFromASL, jsTruthy, hs]

/-- C5 (counterexample): a node claiming state kind `Task` does NOT yield a
state of Type `Task`: `convertToASL` emits Type `Pass` for it. -/
theorem claim_C5_counterexample :
    ((convertToASL
        [{ id := "1", data := some { stateType := some "Task", label := some "T" } }]
        []).map
      (fun d => d.States.map (fun sts => sts.map (fun p => (p.1, p.2.Type')))))
      = some (some [("State_1", some "Pass")]) ∧
    (some "Pass" : Option String) ≠ some "Task" := by
  exact ⟨rfl, by simp⟩

/-- C10: an edge whose endpoints are not both known node ids is skipped when
assigning `Next` but still counts for the start-selection and
terminal-marking passes.  Concretely: (a) a single node whose only outgoing
edge targets the unknown id `ghost` keeps `End: true` and gets no `Next`;
(b) with two nodes where the only edge comes from the unknown source `ghost`
into node `1`, node `1` counts as having an incoming edge, so node `2` is
selected as the start. -/
theorem claim_C10 :
    ((convertToASL [{ id := "1" }] [{ id := "e", source := "1", target := "ghost" }]).map
        (fun d => (d.StartAt, d.States.map (fun sts => sts.map (fun p => (p.1, p.2.Next, p.2.End'))))))
      = some (some "State_1", some [("State_1", none, some true)]) ∧
    ((convertToASL [{ id := "1" }, { id := "2" }]
        [{ id := "e", source := "ghost", target := "1" }]).map (fun d => d.StartAt))
      = some (some "State_2") := by
  exact ⟨rfl, rfl⟩

/-! ## Universal claims about `convertToASL` -/

/-- C3: in every definition produced by `convertToASL`, every state has
exactly one of `Next`/`End` present.  The Choice exception of the claim is
vacuous: the converter never emits Choice states. -/
theorem claim_C3 :
    ∀ nodes edges d, convertToASL nodes edges = some d →
    ∀ sts, d.States = some sts → ∀ p ∈ sts, exactlyOneNextEnd p.2 := by
  apply allP_convertToASL
  · intro n
    unfold makeState
    split <;> exact Or.inr ⟨rfl, rfl⟩
  · intro st t _
    exact Or.inl ⟨rfl, rfl⟩
  · intro st _
    exact Or.inr ⟨rfl, rfl⟩

/-- Witness for C3 at a concrete input. -/
theorem claim_C3_witness :
    ∃ d, convertToASL [{ id := "w" }] [] = some d ∧
      ∃ sts, d.States = some sts ∧ ∀ p ∈ sts, exactlyOneNextEnd p.2 := by
  have h := claim_C3 [{ id := "w" }] []
    (convertToASLCore [{ id := "w" }] { id := "w" } []) rfl _ rfl
  exact ⟨_, rfl, _, rfl, h⟩

/-- The whole `convertToASL` pipeline never changes the key sequence after
the creation pass. -/
theorem keys_convertToASL :
    ∀ n0 ns edges sts,
      (convertToASLCore (n0 :: ns) n0 edges).States = some sts →
      sts.map Prod.fst =
        ((n0 :: ns).foldl
          (fun m nd => recSet m ("State_" ++ nd.id) (makeState nd))
          ([] : StatesRec)).map Prod.fst := by
  intro n0 ns edges sts hsts
  simp only [convertToASLCore, Option.some.injEq] at hsts
  rw [← hsts]
  have h2 : ∀ (m : StatesRec),
      ((n0 :: ns).foldl (finalizeNode (n0 :: ns) edges) m).map Prod.fst =
        m.map Prod.fst := by
    intro m
    exact foldl_inv
      (fun (m' : StatesRec) => m'.map Prod.fst = m.map Prod.fst) _
      (fun b a hb => by dsimp only; rw [keys_finalizeNode]; exact hb)
      (n0 :: ns) m rfl
  have h1 : ∀ (m : StatesRec),
      (edges.foldl (applyEdge (n0 :: ns)) m).map Prod.fst = m.map Prod.fst := by
    intro m
    exact foldl_inv
      (fun (m' : StatesRec) => m'.map Prod.fst = m.map Prod.fst) _
      (fun b a hb => by dsimp only; rw [keys_applyEdge]; exact hb) edges m rfl
  rw [h2, h1]

/-- C5 (amended): for every node, `convertToASL` emits a state named
`State_<node.id>` whose `Type` is always `"Pass"`, regardless of the node's
claimed state kind — not only for unknown or missing type tags. -/
theorem claim_C5_amended :
    ∀ nodes edges d, convertToASL nodes edges = some d →
    ∀ sts, d.States = some sts →
      (∀ p ∈ sts, p.2.Type' = some "Pass") ∧
      (∀ n ∈ nodes, ∃ st, recGet sts ("State_" ++ n.id) = some st ∧
        st.Type' = some "Pass") := by
  intro nodes edges d hconv sts hsts
  have hall : ∀ p ∈ sts, p.2.Type' = some "Pass" := by
    refine allP_convertToASL (fun st => st.Type' = some "Pass") ?_ ?_ ?_
      nodes edges d hconv sts hsts
    · intro n; unfold makeState; split <;> rfl
    · intro st t h; exact h
    · intro st h; exact h
  refine ⟨hall, ?_⟩
  intro n hn
  cases nodes with
  | nil => simp at hn
  | cons n0 ns =>
    simp only [convertToASL, Option.some.injEq] at hconv
    rw [← hconv] at hsts
    have hkeys := keys_convertToASL n0 ns edges sts hsts
    have hkey : ("State_" ++ n.id) ∈ sts.map Prod.fst := by
      rw [hkeys]
      exact keys_creation (n0 :: ns) [] n hn
    obtain ⟨st, hst⟩ :=
      Option.isSome_iff_exists.mp (recGet_isSome_of_key sts _ hkey)
    obtain ⟨p, hp, hp1, hp2⟩ := recGet_mem hst
    refine ⟨st, hst, ?_⟩
    rw [← hp2]
    exact hall p hp

/-- Witness for the amended C5 at a concrete input with a `Task` node. -/
theorem claim_C5_amended_witness :
    ∃ d, convertToASL
        [{ id := "9", data := some { stateType := some "Task" } }] [] = some d ∧
      ∃ sts, d.States = some sts ∧
        (∀ p ∈ sts, p.2.Type' = some "Pass") ∧
        (∀ n ∈ [({ id := "9", data := some { stateType := some "Task" } } : Node)],
          ∃ st, recGet sts ("State_" ++ n.id) = some st ∧
            st.Type' = some "Pass") := by
  have h := claim_C5_amended
    [{ id := "9", data := some { stateType := some "Task" } }] []
    (convertToASLCore [{ id := "9", data := some { stateType := some "Task" } }]
      { id := "9", data := some { stateType := some "Task" } } []) rfl _ rfl
  exact ⟨_, rfl, _, rfl, h⟩

/-! ## C8: start-state selection -/

theorem all_not_target (edges : List Edge) (x : String) :
    (edges.all fun e => !(e.target == x)) = !(edges.any fun e => e.target == x) := by
  induction edges with
  | nil => rfl
  | cons e es ih => simp [List.all_cons, List.any_cons, ih, Bool.not_or]

/-- The start-node search of `convertToASL` computes exactly the
spec-described first node with no incoming edge. -/
theorem find?_eq_firstWithNoIncoming (edges : List Edge) :
    ∀ nodes : List Node,
      nodes.find? (fun n => !(edges.any fun e => e.target == n.id)) =
        firstWithNoIncoming nodes edges := by
  intro nodes
  induction nodes with
  | nil => rfl
  | cons a l ih =>
    rw [List.find?_cons]
    unfold firstWithNoIncoming
    rw [all_not_target]
    cases hb : !(edges.any fun e => e.target == a.id) <;> simp [hb, ih]

theorem jsOrS_some_of_ne {s : String} (b : String) (h : s ≠ "") :
    jsOrS (some s) b = s := by
  unfold jsOrS
  simp [h]

/-- C8: for a non-empty node list, the produced `StartAt` is the state name
of the first node in `nodes` order with no incoming edge, falling back to
the first node when every node has an incoming edge (`specStartName`). -/
theorem claim_C8 (nodes : List Node) (edges : List Edge) (hne : nodes ≠ []) :
    ∃ d, convertToASL nodes edges = some d ∧
      d.StartAt = specStartName nodes edges := by
  cases nodes with
  | nil => exact absurd rfl hne
  | cons n0 ns =>
    refine ⟨convertToASLCore (n0 :: ns) n0 edges, rfl, ?_⟩
    simp only [convertToASLCore]
    have hmem : (((n0 :: ns).find?
        (fun n => !(edges.any fun e => e.target == n.id))).getD n0) ∈ n0 :: ns := by
      cases hfind : (n0 :: ns).find? (fun n => !(edges.any fun e => e.target == n.id)) with
      | none => simp
      | some n =>
        rw [Option.getD_some]
        exact List.mem_of_find?_eq_some hfind
    have hsm : stateMapGet (n0 :: ns)
        ((((n0 :: ns).find? (fun n => !(edges.any fun e => e.target == n.id))).getD n0).id)
        = some ("State_" ++
          (((n0 :: ns).find? (fun n => !(edges.any fun e => e.target == n.id))).getD n0).id) := by
      unfold stateMapGet
      rw [if_pos]
      exact List.any_eq_true.mpr ⟨_, hmem, by simp⟩
    rw [hsm, jsOrS_some_of_ne _ (stateName_ne_empty _)]
    unfold specStartName
    rw [← find?_eq_firstWithNoIncoming]
    cases hfind : (n0 :: ns).find? (fun n => !(edges.any fun e => e.target == n.id)) with
    | none => simp
    | some n => simp

/-- Witness for C8 at a concrete input. -/
theorem claim_C8_witness :
    ∃ d, convertToASL [{ id := "a" }] [] = some d ∧
      d.StartAt = specStartName [{ id := "a" }] [] :=
  claim_C8 [{ id := "a" }] [] (by simp)

/-! ## C6: node ids and edge endpoints of `convertFromASL` -/

theorem nodesFrom_map_id (total : Nat) (sts : List (String × ASLState)) :
    ∀ i : Nat,
      (nodesFrom total i sts).map (fun n => n.id) =
        (List.range' i sts.length).map nid := by
  induction sts with
  | nil => intro i; rfl
  | cons p rest ih =>
    intro i
    obtain ⟨name, st⟩ := p
    rw [nodesFrom, List.map_cons, List.length_cons, List.range'_succ,
      List.map_cons, ih (i + 1)]
    rfl

theorem stnEntries_values (sts : List (String × ASLState)) :
    ∀ i : Nat,
      (stnEntries i sts).map Prod.snd = (List.range' i sts.length).map nid := by
  induction sts with
  | nil => intro i; rfl
  | cons p rest ih =>
    intro i
    obtain ⟨name, st⟩ := p
    rw [stnEntries, List.map_cons, List.length_cons, List.range'_succ,
      List.map_cons, ih (i + 1)]
    rfl

theorem jsMapGet_mem_values {m : List (String × String)} {x v : String}
    (h : jsMapGet m x = some v) : v ∈ m.map Prod.snd := by
  unfold jsMapGet at h
  obtain ⟨q, hq, hq2⟩ := Option.map_eq_some'.mp h
  have hmem : q ∈ m.reverse := List.mem_of_find?_eq_some hq
  rw [List.mem_reverse] at hmem
  rw [← hq2]
  exact List.mem_map.mpr ⟨q, hmem, rfl⟩

theorem mem_choiceEdges_endpoints (stn : List (String × String)) (src : String) :
    ∀ (cs : List ChoiceRule) (i : Nat) (e : Edge), e ∈ choiceEdges stn src i cs →
      e.source = src ∧ e.target ∈ stn.map Prod.snd := by
  intro cs
  induction cs with
  | nil => intro i e he; simp [choiceEdges] at he
  | cons c rest ih =>
    intro i e he
    rw [choiceEdges] at he
    rcases List.mem_append.mp he with h1 | h2
    · split at h1
      · next cn hcn =>
        split at h1
        · split at h1
          · next tgt htgt =>
            rw [List.mem_singleton] at h1
            subst h1
            exact ⟨rfl, jsMapGet_mem_values htgt⟩
          · simp at h1
        · simp at h1
      · simp at h1
    · exact ih (i + 1) e h2

theorem mem_edgesForState_endpoints (stn : List (String × String))
    (p : String × ASLState) (e : Edge) (he : e ∈ edgesForState stn p) :
    e.source ∈ stn.map Prod.snd ∧ e.target ∈ stn.map Prod.snd := by
  unfold edgesForState at he
  split at he
  · simp at he
  · next src hsrc =>
    split at he
    · simp at he
    · have hsrcv : src ∈ stn.map Prod.snd := jsMapGet_mem_values hsrc
      rcases List.mem_append.mp he with h1 | h2
      · split at h1
        · next nxt hnxt =>
          split at h1
          · split at h1
            · next tgt htgt =>
              rw [List.mem_singleton] at h1
              subst h1
              exact ⟨hsrcv, jsMapGet_mem_values htgt⟩
            · simp at h1
          · simp at h1
        · simp at h1
      · split at h2
        · rcases List.mem_append.mp h2 with h3 | h4
          · split at h3
            · next cs hcs =>
              obtain ⟨hes, het⟩ := mem_choiceEdges_endpoints stn src cs 0 e h3
              rw [hes]
              exact ⟨hsrcv, het⟩
            · simp at h3
          · split at h4
            · next df hdf =>
              split at h4
              · split at h4
                · next tgt htgt =>
                  rw [List.mem_singleton] at h4
                  subst h4
                  exact ⟨hsrcv, jsMapGet_mem_values htgt⟩
                · simp at h4
              · simp at h4
            · simp at h4
        · simp at h2

theorem foldl_append_eq {α β : Type} (f : α → List β) :
    ∀ (l : List α) (acc : List β),
      l.foldl (fun acc p => acc ++ f p) acc = acc ++ (l.map f).flatten := by
  intro l
  induction l with
  | nil => intro acc; simp
  | cons a l ih =>
    intro acc
    rw [List.foldl_cons, ih, List.map_cons, List.flatten_cons, List.append_assoc]

/-- C6: the node ids returned by `convertFromASL` are `node-1`, `node-2`, …
in state-enumeration order (counter seeded fresh per call), hence pairwise
distinct, and every returned edge's endpoints are ids of returned nodes. -/
theorem claim_C6 (d : ASLDefinition) (sts : List (String × ASLState))
    (nodes : List Node) (edges : List Edge)
    (hsts : d.States = some sts) (hconv : convertFromASL d = some (nodes, edges)) :
    nodes.map (fun n => n.id) = (List.range sts.length).map nid ∧
    (nodes.map (fun n => n.id)).Nodup ∧
    (∀ e ∈ edges, e.source ∈ nodes.map (fun n => n.id) ∧
      e.target ∈ nodes.map (fun n => n.id)) := by
  unfold convertFromASL at hconv
  rw [hsts] at hconv
  cases hj : jsTruthy d.StartAt with
  | false => rw [hj] at hconv; simp at hconv
  | true =>
    rw [hj] at hconv
    simp only [Bool.not_true, Bool.false_eq_true, if_false, Option.some.injEq,
      Prod.mk.injEq] at hconv
    obtain ⟨hnodes, hedges⟩ := hconv
    have hids : nodes.map (fun n => n.id) = (List.range' 0 sts.length).map nid := by
      rw [← hnodes]
      exact nodesFrom_map_id sts.length sts 0
    refine ⟨by rw [hids, List.range_eq_range'], ?_, ?_⟩
    · rw [hids]
      exact List.Nodup.map (fun a b hab => nid_inj hab) (List.nodup_range' 0 sts.length)
    · intro e he
      rw [← hedges] at he
      rw [foldl_append_eq, List.nil_append] at he
      obtain ⟨l, hl, hel⟩ := List.mem_flatten.mp he
      obtain ⟨p, hp, hpl⟩ := List.mem_map.mp hl
      rw [← hpl] at hel
      have hend := mem_edgesForState_endpoints (stnEntries 0 sts) p e hel
      rw [stnEntries_values sts 0] at hend
      rw [hids]
      exact hend

/-- Witness for C6 at a concrete two-state definition. -/
theorem claim_C6_witness :
    ∃ nodes edges,
      convertFromASL
        { StartAt := some "A",
          States := some
            [("A", { Type' := some "Pass", Next := some "B" }),
             ("B", { Type' := some "Pass", End' := some true })] }
        = some (nodes, edges) ∧
      nodes.map (fun n => n.id) = (List.range 2).map nid ∧
      (nodes.map (fun n => n.id)).Nodup ∧
      (∀ e ∈ edges, e.source ∈ nodes.map (fun n => n.id) ∧
        e.target ∈ nodes.map (fun n => n.id)) := by
  have h := claim_C6
    { StartAt := some "A",
      States := some
        [("A", { Type' := some "Pass", Next := some "B" }),
         ("B", { Type' := some "Pass", End' := some true })] }
    _ _ _ rfl rfl
  exact ⟨_, _, rfl, h.1, h.2.1, h.2.2⟩

/-! ## C7: dangling-reference tolerance of `convertFromASL` -/

/-- C7: whenever `States` is present and `StartAt` is present (a truthy
string — JavaScript's guard cannot tell an absent `StartAt` from `""`),
`convertFromASL` returns a result; every edge it emits targets an existing
node, so a dangling `Next`/`Choices`/`Default` reference contributes no
edge; and the concrete one-state definition with `Next: "NoSuchState"`
yields that state's node with zero outgoing edges. -/
theorem claim_C7 :
    (∀ (d : ASLDefinition) (sts : List (String × ASLState)),
      d.States = some sts → jsTruthy d.StartAt = true →
      (convertFromASL d).isSome = true) ∧
    (∀ (d : ASLDefinition) (nodes : List Node) (edges : List Edge),
      convertFromASL d = some (nodes, edges) →
      ∀ e ∈ edges, e.target ∈ nodes.map (fun n => n.id)) ∧
    convertFromASL
      { StartAt := some "A",
        States := some
          [("A", { Type' := some "Pass", Next := some "NoSuchState" })] }
      = some
        ([{ id := "node-1", type := some "pass",
            data := some
              { label := some "A", stateType := some "Pass", stateName := some "A",
                fullState := some { Type' := some "Pass", Next := some "NoSuchState" } },
            position := some { x := 100, y := 100 } }], []) := by
  refine ⟨?_, ?_, rfl⟩
  · intro d sts hsts hj
    unfold convertFromASL
    rw [hsts, hj]
    rfl
  · intro d nodes edges hconv e he
    unfold convertFromASL at hconv
    cases hsts : d.States with
    | none => rw [hsts] at hconv; simp at hconv
    | some sts =>
      rw [hsts] at hconv
      cases hj : jsTruthy d.StartAt with
      | false => rw [hj] at hconv; simp at hconv
      | true =>
        rw [hj] at hconv
        simp only [Bool.not_true, Bool.false_eq_true, if_false, Option.some.injEq,
          Prod.mk.injEq] at hconv
        obtain ⟨hnodes, hedges⟩ := hconv
        rw [← hedges, foldl_append_eq, List.nil_append] at he
        obtain ⟨l, hl, hel⟩ := List.mem_flatten.mp he
        obtain ⟨p, hp, hpl⟩ := List.mem_map.mp hl
        rw [← hpl] at hel
        have hend := (mem_edgesForState_endpoints (stnEntries 0 sts) p e hel).2
        rw [stnEntries_values sts 0] at hend
        rw [← hnodes, nodesFrom_map_id sts.length sts 0]
        exact hend

/-- Witness for C7's universal parts at concrete inputs. -/
theorem claim_C7_witness :
    (convertFromASL
      { StartAt := some "Z", States := some [("Z", { Type' := some "Pass" })] }).isSome
      = true ∧
    (∀ e ∈ ([] : List Edge), e.target ∈
      ([{ id := "node-1", type := some "pass",
          data := some
            { label := some "A", stateType := some "Pass", stateName := some "A",
              fullState := some { Type' := some "Pass", Next := some "NoSuchState" } },
          position := some { x := 100, y := 100 } }] : List Node).map (fun n => n.id)) :=
  ⟨claim_C7.1 _ _ rfl rfl,
   claim_C7.2.1
     { StartAt := some "A",
       States := some
         [("A", { Type' := some "Pass", Next := some "NoSuchState" })] }
     _ _ rfl⟩

/-! ## C4: Choice fan-out -/

theorem jsMapGet_cons (k v : String) (m : List (String × String)) (x : String) :
    jsMapGet ((k, v) :: m) x =
      match jsMapGet m x with
      | some v' => some v'
      | none => if k == x then some v else none := by
  unfold jsMapGet
  rw [List.reverse_cons, List.find?_append]
  cases hf : (List.find? (fun p => p.1 == x) m.reverse) with
  | some q => rfl
  | none =>
    cases hkx : (k == x) with
    | true => simp [List.find?_cons, hkx]
    | false => simp [List.find?_cons, hkx]

/-- With pairwise-distinct state names, `stateToNodeId` lookup resolves a
name to the node id of its (unique) position. -/
theorem jsMapGet_stnEntries (sts : List (String × ASLState)) :
    ∀ (i : Nat) (x : String), (sts.map Prod.fst).Nodup →
      jsMapGet (stnEntries i sts) x =
        if x ∈ sts.map Prod.fst then
          some (nid (i + (sts.map Prod.fst).indexOf x))
        else none := by
  induction sts with
  | nil => intro i x _; simp [stnEntries, jsMapGet]
  | cons p rest ih =>
    intro i x hnd
    obtain ⟨name, st⟩ := p
    simp only [List.map_cons] at hnd
    have hnd' : (rest.map Prod.fst).Nodup := (List.nodup_cons.mp hnd).2
    have hname : name ∉ rest.map Prod.fst := (List.nodup_cons.mp hnd).1
    rw [stnEntries, jsMapGet_cons, ih (i + 1) x hnd']
    by_cases hx : x ∈ rest.map Prod.fst
    · have hxe : x ≠ name := fun he => hname (he ▸ hx)
      rw [if_pos hx]
      simp only [List.map_cons]
      rw [if_pos (List.mem_cons.mpr (Or.inr hx)),
        List.indexOf_cons_ne _ (fun he => hxe he.symm)]
      have harith : i + 1 + (rest.map Prod.fst).indexOf x =
          i + ((rest.map Prod.fst).indexOf x).succ := by omega
      rw [harith]
    · rw [if_neg hx]
      by_cases hxn : x = name
      · subst hxn
        simp [List.indexOf_cons_self, nid]
      · have hxm : x ∉ (name :: rest.map Prod.fst) := by
          intro hc
          rcases List.mem_cons.mp hc with h | h
          · exact hxn h
          · exact hx h
        simp only [List.map_cons]
        rw [if_neg hxm]
        have : (name == x) = false := by
          apply beq_eq_false_iff_ne.mpr
          exact fun he => hxn he.symm
        simp [this]

/-- Every edge emitted for a state entry carries the entry's own resolved
node id as its source. -/
theorem edgesForState_source (stn : List (String × String))
    (p : String × ASLState) (e : Edge) (he : e ∈ edgesForState stn p) :
    jsMapGet stn p.1 = some e.source := by
  unfold edgesForState at he
  split at he
  · simp at he
  · next src hsrc =>
    split at he
    · simp at he
    · rcases List.mem_append.mp he with h1 | h2
      · split at h1
        · next nxt hnxt =>
          split at h1
          · split at h1
            · next tgt htgt =>
              rw [List.mem_singleton] at h1
              subst h1
              exact hsrc
            · simp at h1
          · simp at h1
        · simp at h1
      · split at h2
        · rcases List.mem_append.mp h2 with h3 | h4
          · split at h3
            · next cs hcs =>
              have hs := (mem_choiceEdges_endpoints stn src cs 0 e h3).1
              rw [hs]
              exact hsrc
            · simp at h3
          · split at h4
            · next df hdf =>
              split at h4
              · split at h4
                · next tgt htgt =>
                  rw [List.mem_singleton] at h4
                  subst h4
                  exact hsrc
                · simp at h4
              · simp at h4
            · simp at h4
        · simp at h2

/-- C4: a Choice state with two `Choices` entries (whose `Next` targets name
existing states) and a `Default` naming an existing state yields exactly
three edges out of that state's node: one per `Choices` entry, labelled with
the choice's discriminant (falling back to `Choice <n>` when the
discriminant is absent — `jsOrS`), plus one edge labelled `Default`.
The state sits at position `pre.length` of the state map; per the data
model, a Choice state carries no `Next` of its own. -/
theorem claim_C4 (d : ASLDefinition) (pre post : List (String × ASLState))
    (name : String) (st : ASLState) (c1 c2 : ChoiceRule) (t1 t2 dfl : String)
    (hsts : d.States = some (pre ++ (name, st) :: post))
    (hnd : ((pre ++ (name, st) :: post).map Prod.fst).Nodup)
    (hstart : jsTruthy d.StartAt = true)
    (htype : st.Type' = some "Choice")
    (hnext : st.Next = none)
    (hchoices : st.Choices = some [c1, c2])
    (hdfl : st.Default = some dfl)
    (ht1 : c1.Next = some t1) (ht1ne : t1 ≠ "")
    (ht1mem : t1 ∈ (pre ++ (name, st) :: post).map Prod.fst)
    (ht2 : c2.Next = some t2) (ht2ne : t2 ≠ "")
    (ht2mem : t2 ∈ (pre ++ (name, st) :: post).map Prod.fst)
    (hdflne : dfl ≠ "")
    (hdflmem : dfl ∈ (pre ++ (name, st) :: post).map Prod.fst) :
    ∃ nodes edges, convertFromASL d = some (nodes, edges) ∧
      edges.filter (fun e => e.source == nid pre.length) =
        [{ id := "edge-" ++ nid pre.length ++ "-" ++
             nid (((pre ++ (name, st) :: post).map Prod.fst).indexOf t1) ++
             "-" ++ toString (0 : Nat),
           source := nid pre.length,
           target := nid (((pre ++ (name, st) :: post).map Prod.fst).indexOf t1),
           label := some (jsOrS c1.Variable ("Choice " ++ toString (0 + 1))) },
         { id := "edge-" ++ nid pre.length ++ "-" ++
             nid (((pre ++ (name, st) :: post).map Prod.fst).indexOf t2) ++
             "-" ++ toString (1 : Nat),
           source := nid pre.length,
           target := nid (((pre ++ (name, st) :: post).map Prod.fst).indexOf t2),
           label := some (jsOrS c2.Variable ("Choice " ++ toString (1 + 1))) },
         { id := "edge-" ++ nid pre.length ++ "-" ++
             nid (((pre ++ (name, st) :: post).map Prod.fst).indexOf dfl) ++
             "-default",
           source := nid pre.length,
           target := nid (((pre ++ (name, st) :: post).map Prod.fst).indexOf dfl),
           label := some "Default" }] := by
  have hnamepre : name ∉ pre.map Prod.fst := by
    rw [List.map_append, List.map_cons, List.nodup_append] at hnd
    intro hc
    exact hnd.2.2 hc (List.mem_cons_self _ _)
  have hnamepost : name ∉ post.map Prod.fst := by
    rw [List.map_append, List.map_cons, List.nodup_append] at hnd
    exact (List.nodup_cons.mp hnd.2.1).1
  have hidx_name :
      ((pre ++ (name, st) :: post).map Prod.fst).indexOf name = pre.length := by
    rw [List.map_append, List.map_cons,
      List.indexOf_append_of_not_mem hnamepre, List.indexOf_cons_self,
      List.length_map]
    omega
  have hnamemem : name ∈ (pre ++ (name, st) :: post).map Prod.fst := by
    rw [List.map_append, List.map_cons]
    exact List.mem_append.mpr (Or.inr (List.mem_cons_self _ _))
  have hstn := jsMapGet_stnEntries (pre ++ (name, st) :: post) 0 name hnd
  rw [if_pos hnamemem, Nat.zero_add, hidx_name] at hstn
  have hstn_t1 := jsMapGet_stnEntries (pre ++ (name, st) :: post) 0 t1 hnd
  rw [if_pos ht1mem, Nat.zero_add] at hstn_t1
  have hstn_t2 := jsMapGet_stnEntries (pre ++ (name, st) :: post) 0 t2 hnd
  rw [if_pos ht2mem, Nat.zero_add] at hstn_t2
  have hstn_dfl := jsMapGet_stnEntries (pre ++ (name, st) :: post) 0 dfl hnd
  rw [if_pos hdflmem, Nat.zero_add] at hstn_dfl
  have hknid : (nid pre.length == "") = false :=
    beq_eq_false_iff_ne.mpr (nid_ne_empty _)
  have ht1f : (t1 == "") = false := beq_eq_false_iff_ne.mpr ht1ne
  have ht2f : (t2 == "") = false := beq_eq_false_iff_ne.mpr ht2ne
  have hdflf : (dfl == "") = false := beq_eq_false_iff_ne.mpr hdflne
  have hours : edgesForState (stnEntries 0 (pre ++ (name, st) :: post)) (name, st) =
      [{ id := "edge-" ++ nid pre.length ++ "-" ++
           nid (((pre ++ (name, st) :: post).map Prod.fst).indexOf t1) ++
           "-" ++ toString (0 : Nat),
         source := nid pre.length,
         target := nid (((pre ++ (name, st) :: post).map Prod.fst).indexOf t1),
         label := some (jsOrS c1.Variable ("Choice " ++ toString (0 + 1))) },
       { id := "edge-" ++ nid pre.length ++ "-" ++
           nid (((pre ++ (name, st) :: post).map Prod.fst).indexOf t2) ++
           "-" ++ toString (1 : Nat),
         source := nid pre.length,
         target := nid (((pre ++ (name, st) :: post).map Prod.fst).indexOf t2),
         label := some (jsOrS c2.Variable ("Choice " ++ toString (1 + 1))) },
       { id := "edge-" ++ nid pre.length ++ "-" ++
           nid (((pre ++ (name, st) :: post).map Prod.fst).indexOf dfl) ++
           "-default",
         source := nid pre.length,
         target := nid (((pre ++ (name, st) :: post).map Prod.fst).indexOf dfl),
         label := some "Default" }] := by
    simp only [edgesForState, hstn, hknid, Bool.false_eq_true, if_false,
      hnext, htype, hchoices, hdfl, choiceEdges, ht1, ht2, ht1f, ht2f, hdflf,
      hstn_t1, hstn_t2, hstn_dfl, Bool.not_false, if_true, beq_self_eq_true,
      List.nil_append, List.append_nil]
    simp
  have hothers : ∀ (p : String × ASLState), p.1 ∈ pre.map Prod.fst ∨
      p.1 ∈ post.map Prod.fst →
      ∀ e ∈ edgesForState (stnEntries 0 (pre ++ (name, st) :: post)) p,
        (e.source == nid pre.length) = false := by
    intro p hp e he
    have hsrc := edgesForState_source _ p e he
    have hpmem : p.1 ∈ (pre ++ (name, st) :: post).map Prod.fst := by
      rw [List.map_append, List.map_cons]
      rcases hp with h | h
      · exact List.mem_append.mpr (Or.inl h)
      · exact List.mem_append.mpr (Or.inr (List.mem_cons.mpr (Or.inr h)))
    rw [jsMapGet_stnEntries _ 0 p.1 hnd, if_pos hpmem, Nat.zero_add] at hsrc
    have hes : e.source =
        nid (((pre ++ (name, st) :: post).map Prod.fst).indexOf p.1) :=
      (Option.some.inj hsrc).symm
    apply beq_eq_false_iff_ne.mpr
    rw [hes]
    intro hc
    have hkidx := nid_inj hc
    have hplt : ((pre ++ (name, st) :: post).map Prod.fst).indexOf p.1 <
        ((pre ++ (name, st) :: post).map Prod.fst).length :=
      List.indexOf_lt_length.mpr hpmem
    have hget : ((pre ++ (name, st) :: post).map Prod.fst).get
        ⟨((pre ++ (name, st) :: post).map Prod.fst).indexOf p.1, hplt⟩ = p.1 :=
      List.indexOf_get hplt
    have hkget : ((pre ++ (name, st) :: post).map Prod.fst).get? pre.length
        = some name := by
      rw [List.map_append, List.get?_append_right (by rw [List.length_map])]
      rw [List.length_map, Nat.sub_self, List.map_cons]
      rfl
    have hget2 : ((pre ++ (name, st) :: post).map Prod.fst).get?
        (((pre ++ (name, st) :: post).map Prod.fst).indexOf p.1) = some p.1 := by
      rw [List.get?_eq_get hplt, hget]
    rw [hkidx, hkget] at hget2
    have hnp : name = p.1 := Option.some.inj hget2
    rcases hp with h | h
    · rw [← hnp] at h
      exact hnamepre h
    · rw [← hnp] at h
      exact hnamepost h
  unfold convertFromASL
  rw [hsts, hstart]
  refine ⟨_, _, rfl, ?_⟩
  rw [foldl_append_eq, List.nil_append, List.filter_flatten, List.map_map,
    List.map_append, List.map_cons, List.flatten_append, List.flatten_cons]
  have hprefilter : ∀ l ∈ pre.map
      ((List.filter fun e => e.source == nid pre.length) ∘
        edgesForState (stnEntries 0 (pre ++ (name, st) :: post))), l = [] := by
    intro l hl
    obtain ⟨p, hp, hpe⟩ := List.mem_map.mp hl
    rw [← hpe, Function.comp_apply]
    apply List.filter_eq_nil_iff.mpr
    intro e he
    rw [hothers p (Or.inl (List.mem_map.mpr ⟨p, hp, rfl⟩)) e he]
    simp
  have hpostfilter : ∀ l ∈ post.map
      ((List.filter fun e => e.source == nid pre.length) ∘
        edgesForState (stnEntries 0 (pre ++ (name, st) :: post))), l = [] := by
    intro l hl
    obtain ⟨p, hp, hpe⟩ := List.mem_map.mp hl
    rw [← hpe, Function.comp_apply]
    apply List.filter_eq_nil_iff.mpr
    intro e he
    rw [hothers p (Or.inr (List.mem_map.mpr ⟨p, hp, rfl⟩)) e he]
    simp
  rw [List.flatten_eq_nil_iff.mpr hprefilter,
    List.flatten_eq_nil_iff.mpr hpostfilter,
    List.nil_append, List.append_nil, Function.comp_apply, hours]
  apply List.filter_eq_self.mpr
  intro e he
  rcases List.mem_cons.mp he with h | h
  · rw [h]; simp
  rcases List.mem_cons.mp h with h2 | h2
  · rw [h2]; simp
  rcases List.mem_cons.mp h2 with h3 | h3
  · rw [h3]; simp
  · simp at h3

/-- Witness for C4 at a concrete three-state definition. -/
theorem claim_C4_witness :
    ∃ nodes edges,
      convertFromASL
        { StartAt := some "C",
          States := some
            [("C", { Type' := some "Choice",
                     Choices := some
                       [{ Next := some "A", Variable := some "$.x" },
                        { Next := some "B", Variable := none }],
                     Default := some "A" }),
             ("A", { Type' := some "Pass", End' := some true }),
             ("B", { Type' := some "Pass", End' := some true })] }
        = some (nodes, edges) ∧
      edges.filter (fun e => e.source == nid 0) =
        [{ id := "edge-" ++ nid 0 ++ "-" ++ nid (["C", "A", "B"].indexOf "A") ++
             "-" ++ toString (0 : Nat),
           source := nid 0, target := nid (["C", "A", "B"].indexOf "A"),
           label := some (jsOrS (some "$.x") ("Choice " ++ toString (0 + 1))) },
         { id := "edge-" ++ nid 0 ++ "-" ++ nid (["C", "A", "B"].indexOf "B") ++
             "-" ++ toString (1 : Nat),
           source := nid 0, target := nid (["C", "A", "B"].indexOf "B"),
           label := some (jsOrS none ("Choice " ++ toString (1 + 1))) },
         { id := "edge-" ++ nid 0 ++ "-" ++ nid (["C", "A", "B"].indexOf "A") ++
             "-default",
           source := nid 0, target := nid (["C", "A", "B"].indexOf "A"),
           label := some "Default" }] := by
  have h := claim_C4
    { StartAt := some "C",
      States := some
        [("C", { Type' := some "Choice",
                 Choices := some
                   [{ Next := some "A", Variable := some "$.x" },
                    { Next := some "B", Variable := none }],
                 Default := some "A" }),
         ("A", { Type' := some "Pass", End' := some true }),
         ("B", { Type' := some "Pass", End' := some true })] }
    []
    [("A", { Type' := some "Pass", End' := some true }),
     ("B", { Type' := some "Pass", End' := some true })]
    "C"
    { Type' := some "Choice",
      Choices := some
        [{ Next := some "A", Variable := some "$.x" },
         { Next := some "B", Variable := none }],
      Default := some "A" }
    { Next := some "A", Variable := some "$.x" }
    { Next := some "B", Variable := none }
    "A" "B" "A"
    rfl (by decide) rfl rfl rfl rfl rfl rfl (by decide) (by decide)
    rfl (by decide) (by decide) (by decide) (by decide)
  exact h

/-! ## Round-trip infrastructure (C1): small lemmas -/

theorem makeState_type (nd : Node) : (makeState nd).Type' = some "Pass" := by
  unfold makeState; split <;> rfl

theorem makeState_next (nd : Node) : (makeState nd).Next = none := by
  unfold makeState; split <;> rfl

theorem makeState_end (nd : Node) : (makeState nd).End' = some true := by
  unfold makeState; split <;> rfl

theorem makeState_finalize (nd : Node) :
    { makeState nd with Next := none, End' := some true } = makeState nd := by
  unfold makeState; split <;> rfl

theorem stateName_beq (a b : String) :
    ("State_" ++ a == "State_" ++ b) = (a == b) := by
  cases hab : (a == b) with
  | true => rw [eq_of_beq hab]; simp
  | false =>
    apply beq_eq_false_iff_ne.mpr
    intro hc
    exact (beq_eq_false_iff_ne.mp hab) (stateName_inj hc)

theorem find?_eq_some_of_unique {α : Type} {p : α → Bool} {l : List α} {a : α}
    (ha : a ∈ l) (hpa : p a = true)
    (huniq : ∀ b ∈ l, p b = true → b = a) : l.find? p = some a := by
  induction l with
  | nil => simp at ha
  | cons x l ih =>
    rw [List.find?_cons]
    cases hx : p x with
    | true =>
      simp only []
      rw [huniq x (List.mem_cons_self x l) hx]
    | false =>
      simp only []
      rcases List.mem_cons.mp ha with h | h
      · rw [← h] at hx
        rw [hpa] at hx
        cases hx
      · exact ih h (fun b hb hpb => huniq b (List.mem_cons.mpr (Or.inr hb)) hpb)

theorem mem_any_id (nodes : List Node) {x : String}
    (h : x ∈ nodes.map (fun n => n.id)) :
    (nodes.any fun n => n.id == x) = true := by
  obtain ⟨n, hn, hnx⟩ := List.mem_map.mp h
  exact List.any_eq_true.mpr ⟨n, hn, by rw [hnx]; simp⟩

theorem mem_get_idx {sts : List (String × ASLState)}
    (hnd : (sts.map Prod.fst).Nodup) {p : String × ASLState} (hp : p ∈ sts) :
    sts.get? ((sts.map Prod.fst).indexOf p.1) = some p := by
  obtain ⟨i, hi⟩ := List.mem_iff_get.mp hp
  have hgi : sts.get? i.1 = some p := by
    rw [List.get?_eq_get i.2, hi]
  have hlt : i.1 < (sts.map Prod.fst).length := by
    rw [List.length_map]; exact i.2
  have hg : (sts.map Prod.fst).get ⟨i.1, hlt⟩ = p.1 := by
    have h2 := List.get?_eq_get hlt
    rw [List.get?_map, hgi] at h2
    exact (Option.some.inj h2).symm
  have hidx := List.get_indexOf hnd ⟨i.1, hlt⟩
  rw [hg] at hidx
  rw [hidx]
  exact hgi

theorem indexOf_of_get? {sts : List (String × ASLState)}
    (hnd : (sts.map Prod.fst).Nodup) {b : Nat} {pb : String × ASLState}
    (hb : sts.get? b = some pb) : (sts.map Prod.fst).indexOf pb.1 = b := by
  obtain ⟨h, hg⟩ := List.get?_eq_some.mp hb
  have hmlt : b < (sts.map Prod.fst).length := by
    rw [List.length_map]; exact h
  have hgm : (sts.map Prod.fst).get ⟨b, hmlt⟩ = pb.1 := by
    have h2 := List.get?_eq_get hmlt
    rw [List.get?_map, hb] at h2
    exact (Option.some.inj h2).symm
  have hidx := List.get_indexOf hnd ⟨b, hmlt⟩
  rw [hgm] at hidx
  exact hidx

theorem nodesFrom_get? (total : Nat) (sts : List (String × ASLState)) :
    ∀ i j, (nodesFrom total i sts).get? j =
      (sts.get? j).map (fun p => aslNode total (i + j) p.1 p.2) := by
  induction sts with
  | nil => intro i j; simp [nodesFrom]
  | cons p rest ih =>
    intro i j
    obtain ⟨name, st⟩ := p
    cases j with
    | zero => simp [nodesFrom]
    | succ j' =>
      rw [nodesFrom]
      rw [List.get?_cons_succ, List.get?_cons_succ, ih (i + 1) j']
      have harith : i + 1 + j' = i + (j' + 1) := by omega
      rw [harith]

theorem nodesFrom_length (total : Nat) (sts : List (String × ASLState)) :
    ∀ i, (nodesFrom total i sts).length = sts.length := by
  induction sts with
  | nil => intro i; rfl
  | cons p rest ih =>
    intro i
    obtain ⟨name, st⟩ := p
    rw [nodesFrom, List.length_cons, List.length_cons, ih (i + 1)]

/-- Without Choice typing, a state contributes at most its `Next` edge. -/
theorem edgesForState_pass (stn : List (String × String)) (p : String × ASLState)
    (htype : p.2.Type' ≠ some "Choice") :
    edgesForState stn p =
      (match jsMapGet stn p.1 with
       | none => []
       | some src =>
         if src == "" then []
         else
           match p.2.Next with
           | some nxt =>
             if !(nxt == "") then
               match jsMapGet stn nxt with
               | some tgt =>
                 [{ id := "edge-" ++ src ++ "-" ++ tgt, source := src,
                    target := tgt, label := none }]
               | none => []
             else []
           | none => []) := by
  have hb : (p.2.Type' == some "Choice") = false := beq_eq_false_iff_ne.mpr htype
  unfold edgesForState
  split
  · rfl
  · split
    · rfl
    · rw [hb]
      simp

theorem keys_of_stateMap (nodes : List Node) (g : Node → ASLState) :
    (nodes.map (fun nd => ("State_" ++ nd.id, g nd))).map Prod.fst =
      nodes.map (fun nd => "State_" ++ nd.id) := by
  rw [List.map_map]
  rfl

theorem recUpdate_map (nodes : List Node) (g : Node → ASLState) (k : String)
    (f : ASLState → ASLState) :
    recUpdate (nodes.map (fun nd => ("State_" ++ nd.id, g nd))) k f =
      nodes.map (fun nd => ("State_" ++ nd.id,
        if ("State_" ++ nd.id) == k then f (g nd) else g nd)) := by
  unfold recUpdate
  rw [List.map_map]
  apply List.map_congr_left
  intro nd _
  simp only [Function.comp_apply]
  split <;> simp_all

/-! ## Round-trip infrastructure (C1): characterizing the convertToASL folds -/

theorem applyEdge_map (nodes : List Node) (g : Node → ASLState) (e : Edge)
    (hs : (nodes.any fun n => n.id == e.source) = true)
    (ht : (nodes.any fun n => n.id == e.target) = true) :
    applyEdge nodes (nodes.map (fun nd => ("State_" ++ nd.id, g nd))) e =
      nodes.map (fun nd => ("State_" ++ nd.id,
        if nd.id == e.source then
          { g nd with End' := none, Next := some ("State_" ++ e.target) }
        else g nd)) := by
  have h1 : ("State_" ++ e.source == "") = false :=
    beq_eq_false_iff_ne.mpr (stateName_ne_empty _)
  have h2 : ("State_" ++ e.target == "") = false :=
    beq_eq_false_iff_ne.mpr (stateName_ne_empty _)
  have h3 : (recGet (nodes.map (fun nd => ("State_" ++ nd.id, g nd)))
      ("State_" ++ e.source)).isSome = true := by
    apply recGet_isSome_of_key
    rw [keys_of_stateMap]
    obtain ⟨n, hn, hne⟩ := List.any_eq_true.mp hs
    exact List.mem_map.mpr ⟨n, hn, by rw [eq_of_beq hne]⟩
  unfold applyEdge stateMapGet
  rw [if_pos hs, if_pos ht]
  simp only [h1, h2, h3, Bool.not_false, Bool.true_and, Bool.and_true, if_true]
  rw [recUpdate_map]
  apply List.map_congr_left
  intro nd _
  rw [stateName_beq]

theorem creation_eq (l : List Node) :
    ∀ init : StatesRec,
      (init.map Prod.fst ++ l.map (fun n => "State_" ++ n.id)).Nodup →
      l.foldl (fun sts n => recSet sts ("State_" ++ n.id) (makeState n)) init =
        init ++ l.map (fun n => ("State_" ++ n.id, makeState n)) := by
  induction l with
  | nil => intro init h; simp
  | cons a l ih =>
    intro init h
    rw [List.map_cons] at h
    have hdisj : ("State_" ++ a.id) ∉ init.map Prod.fst := by
      rw [List.nodup_append] at h
      intro hc
      exact h.2.2 hc (List.mem_cons_self _ _)
    have hany : (init.any fun p => p.1 == ("State_" ++ a.id)) = false := by
      rw [← Bool.not_eq_true]
      intro hc
      obtain ⟨p, hp, hpk⟩ := List.any_eq_true.mp hc
      exact hdisj (List.mem_map.mpr ⟨p, hp, eq_of_beq hpk⟩)
    have hset : recSet init ("State_" ++ a.id) (makeState a) =
        init ++ [("State_" ++ a.id, makeState a)] := by
      unfold recSet
      rw [hany]
      simp
    have hnodup2 : ((init ++ [("State_" ++ a.id, makeState a)]).map Prod.fst ++
        l.map (fun n => "State_" ++ n.id)).Nodup := by
      rw [List.map_append, List.map_singleton, List.append_assoc]
      exact h
    rw [List.foldl_cons, hset, ih _ hnodup2, List.map_cons, List.append_assoc]
    rfl

theorem edge_fold_eq (nodes : List Node) :
    ∀ (es : List Edge) (g : Node → ASLState),
      (∀ e1 ∈ es, ∀ e2 ∈ es, e1.source = e2.source → e1 = e2) →
      (∀ e ∈ es, (nodes.any fun n => n.id == e.source) = true ∧
        (nodes.any fun n => n.id == e.target) = true) →
      es.foldl (applyEdge nodes)
        (nodes.map (fun nd => ("State_" ++ nd.id, g nd))) =
        nodes.map (fun nd => ("State_" ++ nd.id,
          match es.find? (fun e => e.source == nd.id) with
          | some e => { g nd with End' := none, Next := some ("State_" ++ e.target) }
          | none => g nd)) := by
  intro es
  induction es with
  | nil => intro g _ _; rfl
  | cons e rest ih =>
    intro g huniq hvalid
    rw [List.foldl_cons,
      applyEdge_map nodes g e (hvalid e (List.mem_cons_self _ _)).1
        (hvalid e (List.mem_cons_self _ _)).2,
      ih _ (fun e1 h1 e2 h2 =>
          huniq e1 (List.mem_cons.mpr (Or.inr h1)) e2 (List.mem_cons.mpr (Or.inr h2)))
        (fun e' h' => hvalid e' (List.mem_cons.mpr (Or.inr h')))]
    apply List.map_congr_left
    intro nd hnd
    rw [List.find?_cons]
    cases hnde : (e.source == nd.id) with
    | true =>
      simp only []
      have hid : (nd.id == e.source) = true := by
        rw [eq_of_beq hnde]
        simp
      cases hfind : rest.find? (fun e' => e'.source == nd.id) with
      | none =>
        simp only [hfind, hid, if_true]
      | some e2 =>
        have hb := List.find?_some hfind
        have he2src : e2.source = nd.id := eq_of_beq hb
        have he2 : e2 = e := by
          apply huniq e2 (List.mem_cons.mpr (Or.inr (List.mem_of_find?_eq_some hfind)))
            e (List.mem_cons_self _ _)
          rw [he2src, eq_of_beq hnde]
        simp only [hfind, he2, hid, if_true]
    | false =>
      simp only []
      have hid : (nd.id == e.source) = false := by
        apply beq_eq_false_iff_ne.mpr
        intro hc
        exact (beq_eq_false_iff_ne.mp hnde) hc.symm
      simp only [hid, Bool.false_eq_true, if_false]

theorem finalize_fold_eq (nodes : List Node) (edges : List Edge) :
    ∀ (l : List Node) (g : Node → ASLState),
      (∀ m ∈ l, (nodes.any fun n => n.id == m.id) = true) →
      l.foldl (finalizeNode nodes edges)
        (nodes.map (fun nd => ("State_" ++ nd.id, g nd))) =
        nodes.map (fun nd => ("State_" ++ nd.id,
          if (l.any fun m => m.id == nd.id) &&
              !(edges.any fun e => e.source == nd.id) then
            { g nd with Next := none, End' := some true }
          else g nd)) := by
  intro l
  induction l with
  | nil =>
    intro g _
    apply List.map_congr_left
    intro nd _
    simp
  | cons m rest ih =>
    intro g hmem
    rw [List.foldl_cons]
    cases hout : (edges.any fun e => e.source == m.id) with
    | true =>
      have hstep : finalizeNode nodes edges
          (nodes.map (fun nd => ("State_" ++ nd.id, g nd))) m =
          nodes.map (fun nd => ("State_" ++ nd.id, g nd)) := by
        unfold finalizeNode
        rw [hout]
        rfl
      rw [hstep, ih g (fun m' hm' => hmem m' (List.mem_cons.mpr (Or.inr hm')))]
      apply List.map_congr_left
      intro nd hnd
      cases hmn : (m.id == nd.id) with
      | false => simp [List.any_cons, hmn]
      | true =>
        have hedge : (edges.any fun e => e.source == nd.id) = true := by
          rw [← eq_of_beq hmn]
          exact hout
        simp [List.any_cons, hmn, hedge]
    | false =>
      have h3 : (recGet (nodes.map (fun nd => ("State_" ++ nd.id, g nd)))
          ("State_" ++ m.id)).isSome = true := by
        apply recGet_isSome_of_key
        rw [keys_of_stateMap]
        obtain ⟨n, hn, hne⟩ := List.any_eq_true.mp (hmem m (List.mem_cons_self _ _))
        exact List.mem_map.mpr ⟨n, hn, by rw [eq_of_beq hne]⟩
      have hstep : finalizeNode nodes edges
          (nodes.map (fun nd => ("State_" ++ nd.id, g nd))) m =
          nodes.map (fun nd => ("State_" ++ nd.id,
            if nd.id == m.id then { g nd with Next := none, End' := some true }
            else g nd)) := by
        unfold finalizeNode stateMapGet
        rw [hout, if_pos (hmem m (List.mem_cons_self _ _))]
        have h1 : ("State_" ++ m.id == "") = false :=
          beq_eq_false_iff_ne.mpr (stateName_ne_empty _)
        simp only [h1, h3, Bool.not_false, Bool.true_and, Bool.false_eq_true,
          if_false, if_true]
        rw [recUpdate_map]
        apply List.map_congr_left
        intro nd _
        rw [stateName_beq]
      rw [hstep, ih _ (fun m' hm' => hmem m' (List.mem_cons.mpr (Or.inr hm')))]
      apply List.map_congr_left
      intro nd hnd
      cases hmn : (m.id == nd.id) with
      | true =>
        have hedge : (edges.any fun e => e.source == nd.id) = false := by
          rw [← eq_of_beq hmn]
          exact hout
        have hidm : (nd.id == m.id) = true := by
          rw [eq_of_beq hmn]
          simp
        simp only [List.any_cons, hmn, hedge, hidm, Bool.true_or, Bool.not_false,
          Bool.and_true, if_true]
        cases hrest : (rest.any fun m' => m'.id == nd.id) <;> simp [hrest]
      | false =>
        have hidm : (nd.id == m.id) = false := by
          apply beq_eq_false_iff_ne.mpr
          intro hc
          exact (beq_eq_false_iff_ne.mp hmn) hc.symm
        simp only [List.any_cons, hmn, hidm, Bool.false_eq_true, if_false,
          Bool.false_or]

/-- Full characterization of `convertToASL` output states on graphs with
distinct node ids, at most one edge per source (all edges valid). -/
theorem convertToASL_char (n0 : Node) (ns : List Node) (edges : List Edge)
    (hnd : (((n0 :: ns)).map (fun n => n.id)).Nodup)
    (huniq : ∀ e1 ∈ edges, ∀ e2 ∈ edges, e1.source = e2.source → e1 = e2)
    (hvalid : ∀ e ∈ edges, ((n0 :: ns).any fun n => n.id == e.source) = true ∧
      ((n0 :: ns).any fun n => n.id == e.target) = true) :
    ∃ d, convertToASL (n0 :: ns) edges = some d ∧
      d.States = some ((n0 :: ns).map (fun nd =>
        ("State_" ++ nd.id, outStateFinal edges nd))) := by
  refine ⟨_, rfl, ?_⟩
  simp only [convertToASLCore]
  have hkeysnd : ((n0 :: ns).map (fun n => "State_" ++ n.id)).Nodup := by
    have hm : (n0 :: ns).map (fun n => "State_" ++ n.id) =
        ((n0 :: ns).map (fun n => n.id)).map (fun s => "State_" ++ s) := by
      rw [List.map_map]
      rfl
    rw [hm]
    exact List.Nodup.map (fun a b h => stateName_inj h) hnd
  have h0 : (n0 :: ns).foldl
      (fun sts n => recSet sts ("State_" ++ n.id) (makeState n)) ([] : StatesRec) =
      (n0 :: ns).map (fun n => ("State_" ++ n.id, makeState n)) := by
    have := creation_eq (n0 :: ns) [] (by simpa using hkeysnd)
    simpa using this
  rw [h0, edge_fold_eq (n0 :: ns) edges makeState huniq hvalid,
    finalize_fold_eq (n0 :: ns) edges (n0 :: ns) _
      (fun m hm => List.any_eq_true.mpr ⟨m, hm, by simp⟩)]
  congr 1
  apply List.map_congr_left
  intro nd hnd2
  have hself : ((n0 :: ns).any fun m => m.id == nd.id) = true :=
    List.any_eq_true.mpr ⟨nd, hnd2, by simp⟩
  unfold outStateFinal
  cases hedge : (edges.any fun e => e.source == nd.id) with
  | true =>
    simp only [hself, hedge, Bool.not_true, Bool.and_false, Bool.false_eq_true,
      if_false]
  | false =>
    have hfind : edges.find? (fun e => e.source == nd.id) = none := by
      apply List.find?_eq_none.mpr
      intro e he
      intro hc
      have : (edges.any fun e => e.source == nd.id) = true :=
        List.any_eq_true.mpr ⟨e, he, hc⟩
      rw [this] at hedge
      cases hedge
    simp only [hself, hedge, Bool.not_false, Bool.and_true, if_true, hfind]
    exact congrArg (Prod.mk ("State_" ++ nd.id)) (makeState_finalize nd)

/-! ## Round-trip infrastructure (C1): the edges of a Pass chain -/

theorem aslNode_id (total i : Nat) (name : String) (st : ASLState) :
    (aslNode total i name st).id = nid i := rfl

theorem outStateFinal_type (edges : List Edge) (nd : Node) :
    (outStateFinal edges nd).Type' = some "Pass" := by
  unfold outStateFinal
  split
  · exact makeState_type nd
  · exact makeState_type nd

theorem edge_source_nid {sts : List (String × ASLState)}
    (hnd : (sts.map Prod.fst).Nodup) {p : String × ASLState} (hp : p ∈ sts)
    {e : Edge} (he : e ∈ edgesForState (stnEntries 0 sts) p) :
    e.source = nid ((sts.map Prod.fst).indexOf p.1) := by
  have hsrc := edgesForState_source _ p e he
  have hpmem : p.1 ∈ sts.map Prod.fst := List.mem_map.mpr ⟨p, hp, rfl⟩
  rw [jsMapGet_stnEntries sts 0 p.1 hnd, if_pos hpmem, Nat.zero_add] at hsrc
  exact (Option.some.inj hsrc).symm

theorem edgesForState_next_valid {sts : List (String × ASLState)}
    (hnd : (sts.map Prod.fst).Nodup) {p : String × ASLState} (hp : p ∈ sts)
    (htype : p.2.Type' ≠ some "Choice") {t : String}
    (hnext : p.2.Next = some t) (htne : t ≠ "") (htmem : t ∈ sts.map Prod.fst) :
    edgesForState (stnEntries 0 sts) p =
      [nextEdge ((sts.map Prod.fst).indexOf p.1) ((sts.map Prod.fst).indexOf t)] := by
  have hpmem : p.1 ∈ sts.map Prod.fst := List.mem_map.mpr ⟨p, hp, rfl⟩
  have hjp : jsMapGet (stnEntries 0 sts) p.1 =
      some (nid ((sts.map Prod.fst).indexOf p.1)) := by
    rw [jsMapGet_stnEntries sts 0 p.1 hnd, if_pos hpmem, Nat.zero_add]
  have hjt : jsMapGet (stnEntries 0 sts) t =
      some (nid ((sts.map Prod.fst).indexOf t)) := by
    rw [jsMapGet_stnEntries sts 0 t hnd, if_pos htmem, Nat.zero_add]
  have h1 : (nid ((sts.map Prod.fst).indexOf p.1) == "") = false :=
    beq_eq_false_iff_ne.mpr (nid_ne_empty _)
  have h2 : (t == "") = false := beq_eq_false_iff_ne.mpr htne
  rw [edgesForState_pass _ _ htype]
  simp only [hjp, h1, Bool.false_eq_true, if_false, hnext, h2, Bool.not_false,
    if_true, hjt]
  rfl

theorem edgesForState_next_none (stn : List (String × String))
    {p : String × ASLState} (htype : p.2.Type' ≠ some "Choice")
    (hnext : p.2.Next = none) : edgesForState stn p = [] := by
  rw [edgesForState_pass _ _ htype]
  split
  · rfl
  · split
    · rfl
    · simp [hnext]

/-- C1: round-trip structural fidelity.  For a definition whose states are
all Pass states forming one simple linear `Next` chain (chain order `ord`
over state-map positions) ending in one terminal state, `DefinitionToGraph`
followed by `GraphToDefinition` yields a definition with the same number of
states that again forms a linear Pass chain in the SAME positional order
`ord` — so, under the positional correspondence between old and new states,
the directed-path ordering and the terminal state are preserved, though
state names and node ids differ. -/
theorem claim_C1 (d : ASLDefinition) (sts : List (String × ASLState))
    (ord : List Nat)
    (hsts : d.States = some sts)
    (hstart : jsTruthy d.StartAt = true)
    (hnd : (sts.map Prod.fst).Nodup)
    (hne : ∀ x ∈ sts.map Prod.fst, x ≠ "")
    (hnonempty : sts ≠ [])
    (hchain : IsPassChain sts ord) :
    ∃ nodes edges, convertFromASL d = some (nodes, edges) ∧
      ∃ d', convertToASL nodes edges = some d' ∧
        ∃ sts', d'.States = some sts' ∧ sts'.length = sts.length ∧
          IsPassChain sts' ord := by
  obtain ⟨hperm, hpass, hcons, hterm⟩ := hchain
  have hconv : convertFromASL d = some (nodesFrom sts.length 0 sts,
      (sts.map (edgesForState (stnEntries 0 sts))).flatten) := by
    unfold convertFromASL
    rw [hsts, hstart]
    simp only [Bool.not_true, Bool.false_eq_true, if_false]
    rw [foldl_append_eq, List.nil_append]
  have hvalidNext : ∀ p ∈ sts, p.2.Next = none ∨
      ∃ t, p.2.Next = some t ∧ t ≠ "" ∧ t ∈ sts.map Prod.fst := by
    intro p hp
    have hj := mem_get_idx hnd hp
    have hpmem : p.1 ∈ sts.map Prod.fst := List.mem_map.mpr ⟨p, hp, rfl⟩
    have hjlt : (sts.map Prod.fst).indexOf p.1 < sts.length := by
      have := List.indexOf_lt_length.mpr hpmem
      rwa [List.length_map] at this
    have hjord : (sts.map Prod.fst).indexOf p.1 ∈ ord :=
      hperm.mem_iff.mpr (List.mem_range.mpr hjlt)
    obtain ⟨k, hk⟩ := List.mem_iff_get.mp hjord
    have hkg : ord.get? k.1 = some ((sts.map Prod.fst).indexOf p.1) := by
      rw [List.get?_eq_get k.2, hk]
    by_cases hlast : k.1 = ord.length - 1
    · obtain ⟨pa, hpa, hpnone, _⟩ := hterm _ (by rw [← hlast]; exact hkg)
      rw [hj] at hpa
      obtain rfl := Option.some.inj hpa
      exact Or.inl hpnone
    · have hk1lt : k.1 + 1 < ord.length := by
        have := k.2
        omega

      obtain ⟨b, hb⟩ : ∃ b, ord.get? (k.1 + 1) = some b :=
        ⟨ord.get ⟨k.1 + 1, hk1lt⟩, List.get?_eq_get hk1lt⟩
      obtain ⟨pa, pb, hpa, hpb, hnx⟩ := hcons k.1 _ b hkg hb
      rw [hj] at hpa
      obtain rfl := Option.some.inj hpa
      have hpbmem : pb ∈ sts := List.get?_mem hpb
      have hpb1mem : pb.1 ∈ sts.map Prod.fst := List.mem_map.mpr ⟨pb, hpbmem, rfl⟩
      exact Or.inr ⟨pb.1, hnx, hne pb.1 hpb1mem, hpb1mem⟩
  have hnotchoice : ∀ p ∈ sts, p.2.Type' ≠ some "Choice" := by
    intro p hp hc
    rw [hpass p hp] at hc
    simp at hc
  have hstateedges : ∀ p ∈ sts, edgesForState (stnEntries 0 sts) p = [] ∨
      ∃ t, p.2.Next = some t ∧ t ∈ sts.map Prod.fst ∧
        edgesForState (stnEntries 0 sts) p =
          [nextEdge ((sts.map Prod.fst).indexOf p.1)
            ((sts.map Prod.fst).indexOf t)] := by
    intro p hp
    rcases hvalidNext p hp with h | ⟨t, ht, htne, htmem⟩
    · exact Or.inl (edgesForState_next_none _ (hnotchoice p hp) h)
    · exact Or.inr ⟨t, ht, htmem,
        edgesForState_next_valid hnd hp (hnotchoice p hp) ht htne htmem⟩
  have hsame : ∀ e1 ∈ (sts.map (edgesForState (stnEntries 0 sts))).flatten,
      ∀ e2 ∈ (sts.map (edgesForState (stnEntries 0 sts))).flatten,
      e1.source = e2.source → e1 = e2 := by
    intro e1 he1 e2 he2 hsrc
    obtain ⟨l1, hl1, hel1⟩ := List.mem_flatten.mp he1
    obtain ⟨p1, hp1, hpl1⟩ := List.mem_map.mp hl1
    rw [← hpl1] at hel1
    obtain ⟨l2, hl2, hel2⟩ := List.mem_flatten.mp he2
    obtain ⟨p2, hp2, hpl2⟩ := List.mem_map.mp hl2
    rw [← hpl2] at hel2
    have hs1 := edge_source_nid hnd hp1 hel1
    have hs2 := edge_source_nid hnd hp2 hel2
    have hidx : (sts.map Prod.fst).indexOf p1.1 =
        (sts.map Prod.fst).indexOf p2.1 := by
      apply nid_inj
      rw [← hs1, ← hs2, hsrc]
    have hg1 := mem_get_idx hnd hp1
    have hg2 := mem_get_idx hnd hp2
    rw [hidx, hg2] at hg1
    have hp12 : p2 = p1 := Option.some.inj hg1
    rw [hp12] at hel2
    rcases hstateedges p1 hp1 with h | ⟨t, _, _, h⟩
    · rw [h] at hel1
      simp at hel1
    · rw [h] at hel1 hel2
      rw [List.mem_singleton.mp hel1, List.mem_singleton.mp hel2]
  have hidsn : (nodesFrom sts.length 0 sts).map (fun n => n.id) =
      (List.range' 0 sts.length).map nid := nodesFrom_map_id sts.length sts 0
  have hvalid : ∀ e ∈ (sts.map (edgesForState (stnEntries 0 sts))).flatten,
      ((nodesFrom sts.length 0 sts).any fun n => n.id == e.source) = true ∧
      ((nodesFrom sts.length 0 sts).any fun n => n.id == e.target) = true := by
    intro e he
    obtain ⟨l1, hl1, hel1⟩ := List.mem_flatten.mp he
    obtain ⟨p1, hp1, hpl1⟩ := List.mem_map.mp hl1
    rw [← hpl1] at hel1
    have hend := mem_edgesForState_endpoints (stnEntries 0 sts) p1 e hel1
    rw [stnEntries_values sts 0] at hend
    constructor
    · apply mem_any_id
      rw [hidsn]
      exact hend.1
    · apply mem_any_id
      rw [hidsn]
      exact hend.2
  have hndids : ((nodesFrom sts.length 0 sts).map (fun n => n.id)).Nodup := by
    rw [hidsn]
    exact List.Nodup.map (fun a b hab => nid_inj hab)
      (List.nodup_range' 0 sts.length)
  have hnne : nodesFrom sts.length 0 sts ≠ [] := by
    intro hc
    have hl := nodesFrom_length sts.length sts 0
    rw [hc] at hl
    cases sts with
    | nil => exact hnonempty rfl
    | cons p r => simp at hl
  obtain ⟨n0, ns, hnn⟩ := List.exists_cons_of_ne_nil hnne
  obtain ⟨d', hd', hdstates⟩ := convertToASL_char n0 ns
    ((sts.map (edgesForState (stnEntries 0 sts))).flatten)
    (by rw [← hnn]; exact hndids)
    hsame
    (fun e he => by rw [← hnn]; exact hvalid e he)
  have hsts'get : ∀ a (pa : String × ASLState), sts.get? a = some pa →
      ((n0 :: ns).map (fun nd => ("State_" ++ nd.id,
        outStateFinal ((sts.map (edgesForState (stnEntries 0 sts))).flatten) nd))).get? a =
      some ("State_" ++ nid a,
        outStateFinal ((sts.map (edgesForState (stnEntries 0 sts))).flatten)
          (aslNode sts.length a pa.1 pa.2)) := by
    intro a pa hpa
    rw [← hnn, List.get?_map, nodesFrom_get? sts.length sts 0 a, hpa]
    simp only [Option.map_some', Nat.zero_add, aslNode_id]
  refine ⟨_, _, hconv, d', ?_, ?_⟩
  · rw [hnn]
    exact hd'
  · refine ⟨(n0 :: ns).map (fun nd => ("State_" ++ nd.id,
      outStateFinal ((sts.map (edgesForState (stnEntries 0 sts))).flatten) nd)),
      hdstates, ?_, ?_⟩
    · rw [List.length_map, ← hnn, nodesFrom_length]
    · have hlen' : ((n0 :: ns).map (fun nd => ("State_" ++ nd.id,
          outStateFinal ((sts.map (edgesForState (stnEntries 0 sts))).flatten)
            nd))).length = sts.length := by
        rw [List.length_map, ← hnn, nodesFrom_length]
      refine ⟨by rw [hlen']; exact hperm, ?_, ?_, ?_⟩
      · intro p' hp'
        obtain ⟨nd, hndm, hpe⟩ := List.mem_map.mp hp'
        rw [← hpe]
        exact outStateFinal_type _ nd
      · intro j a b hja hjb
        obtain ⟨pa, pb, hpa, hpb, hnx⟩ := hcons j a b hja hjb
        refine ⟨_, _, hsts'get a pa hpa, hsts'get b pb hpb, ?_⟩
        have hpamem : pa ∈ sts := List.get?_mem hpa
        have hpbmem : pb ∈ sts := List.get?_mem hpb
        have hpb1mem : pb.1 ∈ sts.map Prod.fst :=
          List.mem_map.mpr ⟨pb, hpbmem, rfl⟩
        have hidxa : (sts.map Prod.fst).indexOf pa.1 = a :=
          indexOf_of_get? hnd hpa
        have hidxb : (sts.map Prod.fst).indexOf pb.1 = b :=
          indexOf_of_get? hnd hpb
        have hedges : edgesForState (stnEntries 0 sts) pa = [nextEdge a b] := by
          have h := edgesForState_next_valid hnd hpamem (hnotchoice pa hpamem)
            hnx (hne pb.1 hpb1mem) hpb1mem
          rw [hidxa, hidxb] at h
          exact h
        have hmemE : nextEdge a b ∈
            (sts.map (edgesForState (stnEntries 0 sts))).flatten := by
          apply List.mem_flatten.mpr
          refine ⟨edgesForState (stnEntries 0 sts) pa,
            List.mem_map.mpr ⟨pa, hpamem, rfl⟩, ?_⟩
          rw [hedges]
          exact List.mem_singleton.mpr rfl
        have hfind : ((sts.map (edgesForState (stnEntries 0 sts))).flatten).find?
            (fun e => e.source == nid a) = some (nextEdge a b) := by
          apply find?_eq_some_of_unique hmemE (by simp [nextEdge])
          intro e' he' hpe'
          apply hsame e' he' (nextEdge a b) hmemE
          rw [eq_of_beq hpe']
          rfl
        show (outStateFinal ((sts.map (edgesForState (stnEntries 0 sts))).flatten)
          (aslNode sts.length a pa.1 pa.2)).Next = some ("State_" ++ nid b)
        unfold outStateFinal
        rw [aslNode_id, hfind]
        rfl
      · intro a hja
        obtain ⟨pa, hpa, hpnone, hpend⟩ := hterm a (by
          have hordlen' : ((n0 :: ns).map (fun nd => ("State_" ++ nd.id,
              outStateFinal ((sts.map (edgesForState (stnEntries 0 sts))).flatten)
                nd))).length = sts.length := by
            rw [List.length_map, ← hnn, nodesFrom_length]
          exact hja)
        have hpamem : pa ∈ sts := List.get?_mem hpa
        refine ⟨_, hsts'get a pa hpa, ?_, ?_⟩
        · have hnoedge : ((sts.map (edgesForState (stnEntries 0 sts))).flatten).find?
              (fun e => e.source == nid a) = none := by
            apply List.find?_eq_none.mpr
            intro e he hc
            obtain ⟨l1, hl1, hel1⟩ := List.mem_flatten.mp he
            obtain ⟨p1, hp1, hpl1⟩ := List.mem_map.mp hl1
            rw [← hpl1] at hel1
            have hs := edge_source_nid hnd hp1 hel1
            have hia : (sts.map Prod.fst).indexOf p1.1 = a := by
              apply nid_inj
              rw [← hs]
              exact eq_of_beq hc
            have hg := mem_get_idx hnd hp1
            rw [hia, hpa] at hg
            obtain rfl : pa = p1 := Option.some.inj hg
            have hz := edgesForState_next_none (stnEntries 0 sts)
              (hnotchoice pa hpamem) hpnone
            rw [hz] at hel1
            simp at hel1
          show (outStateFinal
            ((sts.map (edgesForState (stnEntries 0 sts))).flatten)
            (aslNode sts.length a pa.1 pa.2)).Next = none
          unfold outStateFinal
          rw [aslNode_id, hnoedge]
          exact makeState_next _
        · have hnoedge : ((sts.map (edgesForState (stnEntries 0 sts))).flatten).find?
              (fun e => e.source == nid a) = none := by
            apply List.find?_eq_none.mpr
            intro e he hc
            obtain ⟨l1, hl1, hel1⟩ := List.mem_flatten.mp he
            obtain ⟨p1, hp1, hpl1⟩ := List.mem_map.mp hl1
            rw [← hpl1] at hel1
            have hs := edge_source_nid hnd hp1 hel1
            have hia : (sts.map Prod.fst).indexOf p1.1 = a := by
              apply nid_inj
              rw [← hs]
              exact eq_of_beq hc
            have hg := mem_get_idx hnd hp1
            rw [hia, hpa] at hg
            obtain rfl : pa = p1 := Option.some.inj hg
            have hz := edgesForState_next_none (stnEntries 0 sts)
              (hnotchoice pa hpamem) hpnone
            rw [hz] at hel1
            simp at hel1
          show (outStateFinal
            ((sts.map (edgesForState (stnEntries 0 sts))).flatten)
            (aslNode sts.length a pa.1 pa.2)).End' = some true
          unfold outStateFinal
          rw [aslNode_id, hnoedge]
          exact makeState_end _

/-- Witness for C1 at a concrete two-state Pass chain. -/
theorem claim_C1_witness :
    ∃ nodes edges,
      convertFromASL
        { StartAt := some "S1",
          States := some
            [("S1", { Type' := some "Pass", Next := some "S2" }),
             ("S2", { Type' := some "Pass", End' := some true })] }
        = some (nodes, edges) ∧
      ∃ d', convertToASL nodes edges = some d' ∧
        ∃ sts', d'.States = some sts' ∧
          sts'.length =
            ([("S1", ({ Type' := some "Pass", Next := some "S2" } : ASLState)),
              ("S2", { Type' := some "Pass", End' := some true })]).length ∧
          IsPassChain sts' [0, 1] := by
  have hchainEx : IsPassChain
      [("S1", { Type' := some "Pass", Next := some "S2" }),
       ("S2", { Type' := some "Pass", End' := some true })] [0, 1] := by
    refine ⟨by decide, by decide, ?_, ?_⟩
    · intro j a b hja hjb
      cases j with
      | zero =>
        simp only [List.get?] at hja hjb
        obtain rfl := Option.some.inj hja
        obtain rfl := Option.some.inj hjb
        exact ⟨_, _, rfl, rfl, rfl⟩
      | succ j' =>
        cases j' with
        | zero => simp at hjb
        | succ j'' => simp at hja
    · intro a ha
      simp only [List.get?] at ha
      obtain rfl := Option.some.inj ha
      exact ⟨_, rfl, rfl, rfl⟩
  exact claim_C1
    { StartAt := some "S1",
      States := some
        [("S1", { Type' := some "Pass", Next := some "S2" }),
         ("S2", { Type' := some "Pass", End' := some true })] }
    [("S1", { Type' := some "Pass", Next := some "S2" }),
     ("S2", { Type' := some "Pass", End' := some true })]
    [0, 1] rfl rfl (by decide) (by decide) (by decide) hchainEx

end FlowBuilder
